import Mathlib

/-! # CORS policy matching and preflight decision engine

A shallow embedding of `cors.go` (package `cors`, a fasthttp port of rs/cors).

* Go `string` and `[]byte` values are lists of characters (`Str`); a `nil` slice and an
  empty slice are both `[]`, the code only ever inspects `len`.
* `strings.ToLower`, `bytes.ToLower`, `strings.ToUpper`, `bytes.ToUpper` are the standard
  library's case mappings on ASCII letters; other characters are left alone.
* The fasthttp request and response headers are ordered lists of key/value pairs with the
  library's `Peek`, `Add` and `Set` behaviour for ordinary (non-special) header keys, which
  is what `Origin`, `Vary` and the `Access-Control-*` headers are.
* The handlers mutate `ctx.Response.Header` in place; here they take the context and return
  the updated one.
* Logging (`c.Log`, `c.logf`) only writes to a side channel and is left out.
-/

namespace cors

/-- Go byte strings. -/
abbrev Str := List Char

/-! ## Standard library -/

/-- Go `strings.ToLower` / `bytes.ToLower` on ASCII text. -/
def ToLower (s : Str) : Str := s.map Char.toLower

/-- Go `strings.ToUpper` / `bytes.ToUpper` on ASCII text. -/
def ToUpper (s : Str) : Str := s.map Char.toUpper

/-- Go `strings.IndexByte`: index of the first occurrence of `c` in `s`, or `-1`. -/
def IndexByte : Str → Char → Int
  | [], _ => -1
  | b :: s, c =>
    if b = c then 0
    else
      let i := IndexByte s c
      if i ≥ 0 then i + 1 else -1

/-- Go `strings.Join`. -/
def Join : List Str → Str → Str
  | [], _ => []
  | [a], _ => a
  | a :: b :: rest, sep => a ++ sep ++ Join (b :: rest) sep

/-- Go `strconv.Itoa`. -/
def Itoa (n : Int) : Str := (toString n).toList

/-- The bytes `net/textproto` accepts in a header field name (RFC 7230 token characters). -/
def validHeaderFieldByte (c : Char) : Bool :=
  c.isAlphanum || c ∈ ['!', '#', '$', '%', '&', '\'', '*', '+', '-', '.', '^', '_', '\x60', '|', '~']

/-- The case-fixing loop of `textproto.canonicalMIMEHeaderKey`: the first letter and every
letter after a hyphen is upper-cased, every other letter is lower-cased. -/
def canonicalLoop : Bool → Str → Str
  | _, [] => []
  | upper, c :: s =>
    let c1 := if upper then c.toUpper else c.toLower
    c1 :: canonicalLoop (c1 = '-') s

/-- Go `http.CanonicalHeaderKey`: a key with a byte that is not valid in a header field name
is returned unchanged, every other key is put in canonical case. -/
def CanonicalHeaderKey (s : Str) : Str :=
  if s.all validHeaderFieldByte then canonicalLoop true s else s

/-! ## fasthttp request and response -/

/-- The part of `fasthttp.RequestHeader` the middleware reads: the method and the ordinary
header fields, in the order they were received. -/
structure RequestHeader where
  method : Str
  h : List (Str × Str)

/-- The `fasthttp.RequestHeader.Method` accessor: an unset method reads as `GET`. -/
def RequestHeader.Method (r : RequestHeader) : Str :=
  if r.method.length = 0 then "GET".toList else r.method

/-- The fasthttp `peekArgBytes` lookup: the value of the first field with that key, or nil. -/
def peekArg : List (Str × Str) → Str → Str
  | [], _ => []
  | kv :: rest, k => if kv.1 = k then kv.2 else peekArg rest k

/-- The `fasthttp.RequestHeader.Peek` accessor. -/
def RequestHeader.Peek (r : RequestHeader) (key : Str) : Str := peekArg r.h key

/-- The `fasthttp.Request` record. -/
structure Request where
  Header : RequestHeader

/-- The ordinary fields of a `fasthttp.ResponseHeader`, in order. -/
structure ResponseHeader where
  h : List (Str × Str)

/-- The fasthttp `setArgBytes` update: overwrite the value of the first field with that key,
or append a new field when there is none. -/
def setArg : List (Str × Str) → Str → Str → List (Str × Str)
  | [], k, v => [(k, v)]
  | kv :: rest, k, v => if kv.1 = k then (kv.1, v) :: rest else kv :: setArg rest k v

/-- The `fasthttp.ResponseHeader.Add` method: append a field, keeping those already there. -/
def ResponseHeader.Add (r : ResponseHeader) (key value : Str) : ResponseHeader :=
  ⟨r.h ++ [(key, value)]⟩

/-- The `fasthttp.ResponseHeader.Set` method (and `SetBytesV`). -/
def ResponseHeader.Set (r : ResponseHeader) (key value : Str) : ResponseHeader :=
  ⟨setArg r.h key value⟩

/-- All values stored under a key, in order (the test helper `headerValues`). -/
def ResponseHeader.values (r : ResponseHeader) (key : Str) : List Str :=
  (r.h.filter (fun kv => kv.1 = key)).map Prod.snd

/-- Whether a field with that key is stored. -/
def ResponseHeader.has (r : ResponseHeader) (key : Str) : Bool :=
  r.h.any (fun kv => kv.1 = key)

/-- The `fasthttp.Response` record: header fields and status code. -/
structure Response where
  Header : ResponseHeader
  statusCode : Nat

/-- The `fasthttp.RequestCtx` record. -/
structure RequestCtx where
  Request : Request
  Response : Response

/-- The `fasthttp.RequestCtx.IsOptions` test. -/
def RequestCtx.IsOptions (ctx : RequestCtx) : Bool :=
  ctx.Request.Header.Method = "OPTIONS".toList

/-- Replace the response header of a context. -/
def RequestCtx.withHeader (ctx : RequestCtx) (hd : ResponseHeader) : RequestCtx :=
  { ctx with Response := { ctx.Response with Header := hd } }

/-! ## Helpers of `utils.go` -/

/-- Modelled from the spec: the `wildcard` type of `utils.go`, a pattern with one `*`, kept
as the text before the `*` and the text after it. -/
structure wildcard where
  pfx : Str
  sfx : Str

/-- Modelled from the spec: the `match` method of `wildcard` in `utils.go`. True iff the
candidate starts with the pattern prefix, ends with the pattern suffix, and is at least as
long as prefix and suffix together. -/
def wildcard.matches (w : wildcard) (s : Str) : Bool :=
  w.pfx.isPrefixOf s && w.sfx.isSuffixOf s && decide (s.length ≥ w.pfx.length + w.sfx.length)

/-- Modelled from the spec: `convert` of `utils.go` applies the converter to every entry of
a list, in order (`convert ["A","b","C"] ToLower` is `["a","b","c"]`). -/
def convert (s : List Str) (c : Str → Str) : List Str := s.map c

/-- Split a byte string at every comma. -/
def splitComma : Str → List Str
  | [] => [[]]
  | c :: s =>
    if c = ',' then [] :: splitComma s
    else
      match splitComma s with
      | [] => [[c]]
      | t :: ts => (c :: t) :: ts

/-- Strip the whitespace around a token. -/
def trimSpace (s : Str) : Str :=
  ((s.dropWhile Char.isWhitespace).reverse.dropWhile Char.isWhitespace).reverse

/-- Modelled from the spec: `parseHeaderList` of `utils.go` splits on commas, trims the
whitespace around each token, discards empty tokens and canonicalizes each surviving token,
keeping the original order and duplicates. -/
def parseHeaderList (raw : Str) : List Str :=
  (((splitComma raw).map trimSpace).filter (fun t => t.length ≠ 0)).map CanonicalHeaderKey

/-! ## Options and policy -/

/-- The `Options` configuration record (`Debug` only switches logging on). -/
structure Options where
  AllowedOrigins : List Str := []
  AllowOriginFunc : Option (Str → Bool) := none
  AllowOriginRequestFunc : Option (RequestCtx → Str → Bool) := none
  AllowedMethods : List Str := []
  AllowedHeaders : List Str := []
  ExposedHeaders : List Str := []
  MaxAge : Int := 0
  AllowCredentials : Bool := false
  OptionsPassthrough : Bool := false
  Debug : Bool := false

/-- The `Cors` policy record; every field starts at its Go zero value. -/
structure Cors where
  allowedOrigins : List Str := []
  allowedWOrigins : List wildcard := []
  allowOriginFunc : Option (Str → Bool) := none
  allowOriginRequestFunc : Option (RequestCtx → Str → Bool) := none
  allowedHeaders : List Str := []
  allowedMethods : List Str := []
  exposedHeaders : List Str := []
  maxAge : Int := 0
  allowedOriginsAll : Bool := false
  allowedHeadersAll : Bool := false
  allowCredentials : Bool := false
  optionPassthrough : Bool := false

/-- The loop of `New` over `options.AllowedOrigins` (cors.go lines 134-150). -/
def newOrigins : List Str → Cors → Cors
  | [], c => c
  | origin :: rest, c =>
    let origin := ToLower origin
    if origin = "*".toList then
      { c with allowedOriginsAll := true, allowedOrigins := [], allowedWOrigins := [] }
    else
      let i := IndexByte origin '*'
      if i ≥ 0 then
        let w : wildcard := ⟨origin.take i.toNat, origin.drop (i.toNat + 1)⟩
        newOrigins rest { c with allowedWOrigins := c.allowedWOrigins ++ [w] }
      else
        newOrigins rest { c with allowedOrigins := c.allowedOrigins ++ [origin] }

/-- The loop of `New` over `options.AllowedHeaders` looking for `*` (cors.go lines 160-166). -/
def newHeadersAll : List Str → Cors → Cors
  | [], c => c
  | h :: rest, c =>
    if h = "*".toList then { c with allowedHeadersAll := true, allowedHeaders := [] }
    else newHeadersAll rest c

/-- The constructor `New`: a policy from the provided options. -/
def New (options : Options) : Cors :=
  let c : Cors :=
    { exposedHeaders := convert options.ExposedHeaders CanonicalHeaderKey
      allowOriginFunc := options.AllowOriginFunc
      allowOriginRequestFunc := options.AllowOriginRequestFunc
      allowCredentials := options.AllowCredentials
      maxAge := options.MaxAge
      optionPassthrough := options.OptionsPassthrough }
  -- Allowed Origins
  let c :=
    if options.AllowedOrigins.length = 0 then
      if options.AllowOriginFunc.isNone && options.AllowOriginRequestFunc.isNone then
        { c with allowedOriginsAll := true }
      else c
    else
      newOrigins options.AllowedOrigins { c with allowedOrigins := [], allowedWOrigins := [] }
  -- Allowed Headers
  let c :=
    if options.AllowedHeaders.length = 0 then
      { c with allowedHeaders :=
          ["Origin".toList, "Accept".toList, "Content-Type".toList, "X-Requested-With".toList] }
    else
      newHeadersAll options.AllowedHeaders
        { c with allowedHeaders :=
            convert (options.AllowedHeaders ++ ["Origin".toList]) CanonicalHeaderKey }
  -- Allowed Methods
  let c :=
    if options.AllowedMethods.length = 0 then
      { c with allowedMethods := ["GET".toList, "POST".toList, "HEAD".toList] }
    else
      { c with allowedMethods := convert options.AllowedMethods ToUpper }
  c

/-- The constructor `Default`. -/
def Default : Cors := New {}

/-- The constructor `AllowAll`. -/
def AllowAll : Cors :=
  New { AllowedOrigins := ["*".toList]
        AllowedMethods :=
          ["HEAD".toList, "GET".toList, "POST".toList, "PUT".toList, "PATCH".toList,
            "DELETE".toList]
        AllowedHeaders := ["*".toList]
        AllowCredentials := false }

/-! ## Admissibility checks -/

/-- The loop of `isOriginAllowed` over the literal origins (cors.go lines 358-362). -/
def originInList : List Str → Str → Bool
  | [], _ => false
  | o :: rest, origin => if o = origin then true else originInList rest origin

/-- The loop of `isOriginAllowed` over the wildcard origins (cors.go lines 363-367). -/
def originInWildcards : List wildcard → Str → Bool
  | [], _ => false
  | w :: rest, origin => if w.matches origin then true else originInWildcards rest origin

/-- The method `isOriginAllowed`. -/
def Cors.isOriginAllowed (c : Cors) (ctx : RequestCtx) (origin : Str) : Bool :=
  match c.allowOriginRequestFunc with
  | some f => f ctx origin
  | none =>
    match c.allowOriginFunc with
    | some f => f origin
    | none =>
      if c.allowedOriginsAll then true
      else
        let origin := ToLower origin
        if originInList c.allowedOrigins origin then true
        else if originInWildcards c.allowedWOrigins origin then true
        else false

/-- The loop of `isMethodAllowed` over the allowed methods (cors.go lines 385-389). -/
def methodInList : List Str → Str → Bool
  | [], _ => false
  | m :: rest, method => if m = method then true else methodInList rest method

/-- The method `isMethodAllowed`. -/
def Cors.isMethodAllowed (c : Cors) (method : Str) : Bool :=
  if c.allowedMethods.length = 0 then false
  else
    let method := ToUpper method
    if method = "OPTIONS".toList then true
    else methodInList c.allowedMethods method

/-- The inner loop of `areHeadersAllowed` (cors.go lines 402-407): the `found` flag. -/
def headerFound : List Str → Str → Bool
  | [], _ => false
  | h :: rest, header => if h = header then true else headerFound rest header

/-- The outer loop of `areHeadersAllowed` (cors.go lines 399-411). -/
def headersLoop (allowed : List Str) : List Str → Bool
  | [] => true
  | header :: rest =>
    let header := CanonicalHeaderKey header
    if !headerFound allowed header then false else headersLoop allowed rest

/-- The method `areHeadersAllowed`. -/
def Cors.areHeadersAllowed (c : Cors) (requestedHeaders : List Str) : Bool :=
  if c.allowedHeadersAll || requestedHeaders.length = 0 then true
  else headersLoop c.allowedHeaders requestedHeaders

/-! ## Decision engine -/

/-- The method `handlePreflight`: handles pre-flight CORS requests. -/
def Cors.handlePreflight (c : Cors) (ctx : RequestCtx) : RequestCtx :=
  let headers := ctx.Response.Header
  let origin := ctx.Request.Header.Peek "Origin".toList
  if !ctx.IsOptions then ctx
  else
    -- Always set Vary headers
    let headers := headers.Add "Vary".toList "Origin".toList
    let headers := headers.Add "Vary".toList "Access-Control-Request-Method".toList
    let headers := headers.Add "Vary".toList "Access-Control-Request-Headers".toList
    let ctx := ctx.withHeader headers
    if origin.length = 0 then ctx
    else if !c.isOriginAllowed ctx origin then ctx
    else
      let reqMethod := ctx.Request.Header.Peek "Access-Control-Request-Method".toList
      if !c.isMethodAllowed reqMethod then ctx
      else
        let reqHeaders :=
          parseHeaderList (ctx.Request.Header.Peek "Access-Control-Request-Headers".toList)
        if !c.areHeadersAllowed reqHeaders then ctx
        else
          let headers :=
            if c.allowedOriginsAll then
              headers.Set "Access-Control-Allow-Origin".toList "*".toList
            else headers.Set "Access-Control-Allow-Origin".toList origin
          let headers := headers.Set "Access-Control-Allow-Methods".toList (ToUpper reqMethod)
          let headers :=
            if reqHeaders.length > 0 then
              headers.Set "Access-Control-Allow-Headers".toList (Join reqHeaders ", ".toList)
            else headers
          let headers :=
            if c.allowCredentials then
              headers.Set "Access-Control-Allow-Credentials".toList "true".toList
            else headers
          let headers :=
            if c.maxAge > 0 then headers.Set "Access-Control-Max-Age".toList (Itoa c.maxAge)
            else headers
          ctx.withHeader headers

/-- The method `handleActualRequest`: handles simple cross-origin requests, actual requests
or redirects. -/
def Cors.handleActualRequest (c : Cors) (ctx : RequestCtx) : RequestCtx :=
  let headers := ctx.Response.Header
  let origin := ctx.Request.Header.Peek "Origin".toList
  -- Always set Vary
  let headers := headers.Add "Vary".toList "Origin".toList
  let ctx := ctx.withHeader headers
  if origin.length = 0 then ctx
  else if !c.isOriginAllowed ctx origin then ctx
  else if !c.isMethodAllowed ctx.Request.Header.Method then ctx
  else
    let headers :=
      if c.allowedOriginsAll then headers.Set "Access-Control-Allow-Origin".toList "*".toList
      else headers.Set "Access-Control-Allow-Origin".toList origin
    let headers :=
      if c.exposedHeaders.length > 0 then
        headers.Set "Access-Control-Expose-Headers".toList (Join c.exposedHeaders ", ".toList)
      else headers
    let headers :=
      if c.allowCredentials then
        headers.Set "Access-Control-Allow-Credentials".toList "true".toList
      else headers
    ctx.withHeader headers

/-- The `fasthttp.RequestCtx.SetStatusCode` method. -/
def RequestCtx.SetStatusCode (ctx : RequestCtx) (code : Nat) : RequestCtx :=
  { ctx with Response := { ctx.Response with statusCode := code } }

/-- The method `Handler`: the middleware around a downstream handler `h`. -/
def Cors.Handler (c : Cors) (h : RequestCtx → RequestCtx) (ctx : RequestCtx) : RequestCtx :=
  if ctx.IsOptions
      && (ctx.Request.Header.Peek "Access-Control-Request-Method".toList).length ≠ 0 then
    let ctx := c.handlePreflight ctx
    if c.optionPassthrough then h ctx
    else ctx.SetStatusCode 204
  else
    let ctx := c.handleActualRequest ctx
    h ctx

/-! ## Notions used to state the properties -/

/-- The `fasthttp.ResponseHeader.Peek` accessor: the first value stored under a key. -/
def ResponseHeader.Peek (r : ResponseHeader) (key : Str) : Str := peekArg r.h key

/-- The response header after the three `Vary` additions of `handlePreflight`
(cors.go lines 242-244). -/
def preflightVary (hd : ResponseHeader) : ResponseHeader :=
  ((hd.Add "Vary".toList "Origin".toList).Add "Vary".toList
    "Access-Control-Request-Method".toList).Add "Vary".toList
    "Access-Control-Request-Headers".toList

/-- The four checks of `handlePreflight` (cors.go lines 246-266) all pass: the `Origin`
header is non-empty, the origin is allowed, the requested method is allowed and the
requested headers are allowed. The origin check sees the context as it is at that point,
with the three `Vary` values added. -/
def Cors.preflightGranted (c : Cors) (ctx : RequestCtx) : Bool :=
  decide (ctx.Request.Header.Peek "Origin".toList ≠ [])
    && c.isOriginAllowed (ctx.withHeader (preflightVary ctx.Response.Header))
        (ctx.Request.Header.Peek "Origin".toList)
    && c.isMethodAllowed (ctx.Request.Header.Peek "Access-Control-Request-Method".toList)
    && c.areHeadersAllowed
        (parseHeaderList (ctx.Request.Header.Peek "Access-Control-Request-Headers".toList))

/-- The three checks of `handleActualRequest` (cors.go lines 302-319) all pass: the `Origin`
header is non-empty, the origin is allowed and the request method is allowed. The origin
check sees the context with `Vary: Origin` added. -/
def Cors.actualGranted (c : Cors) (ctx : RequestCtx) : Bool :=
  decide (ctx.Request.Header.Peek "Origin".toList ≠ [])
    && c.isOriginAllowed
        (ctx.withHeader (ctx.Response.Header.Add "Vary".toList "Origin".toList))
        (ctx.Request.Header.Peek "Origin".toList)
    && c.isMethodAllowed ctx.Request.Header.Method

/-- The wildcard pattern of an origin entry: the text before its first `*` and the text
after it. -/
def splitWildcard (s : Str) : wildcard :=
  ⟨s.takeWhile (fun b => b ≠ '*'), (s.dropWhile (fun b => b ≠ '*')).drop 1⟩

/-- A request context with a fresh response, for concrete checks. -/
def mkCtx (method : String) (fields : List (String × String)) : RequestCtx :=
  ⟨⟨⟨method.toList, fields.map (fun kv => (kv.1.toList, kv.2.toList))⟩⟩, ⟨⟨[]⟩, 200⟩⟩

/-- The header writes of a granted preflight (cors.go lines 268-290), applied to the
response header `headers`. -/
def Cors.preflightHeaders (c : Cors) (origin reqMethod : Str) (reqHeaders : List Str)
    (headers : ResponseHeader) : ResponseHeader :=
  let headers :=
    if c.allowedOriginsAll then headers.Set "Access-Control-Allow-Origin".toList "*".toList
    else headers.Set "Access-Control-Allow-Origin".toList origin
  let headers := headers.Set "Access-Control-Allow-Methods".toList (ToUpper reqMethod)
  let headers :=
    if reqHeaders.length > 0 then
      headers.Set "Access-Control-Allow-Headers".toList (Join reqHeaders ", ".toList)
    else headers
  let headers :=
    if c.allowCredentials then
      headers.Set "Access-Control-Allow-Credentials".toList "true".toList
    else headers
  if c.maxAge > 0 then headers.Set "Access-Control-Max-Age".toList (Itoa c.maxAge)
  else headers

/-- The header writes of a granted actual request (cors.go lines 321-333), applied to the
response header `headers`. -/
def Cors.actualHeaders (c : Cors) (origin : Str) (headers : ResponseHeader) : ResponseHeader :=
  let headers :=
    if c.allowedOriginsAll then headers.Set "Access-Control-Allow-Origin".toList "*".toList
    else headers.Set "Access-Control-Allow-Origin".toList origin
  let headers :=
    if c.exposedHeaders.length > 0 then
      headers.Set "Access-Control-Expose-Headers".toList (Join c.exposedHeaders ", ".toList)
    else headers
  if c.allowCredentials then
    headers.Set "Access-Control-Allow-Credentials".toList "true".toList
  else headers

/-- Whether a request field with that key was received, whatever its value. -/
def RequestHeader.has (r : RequestHeader) (key : Str) : Bool :=
  r.h.any (fun kv => kv.1 = key)

/-- The dispatch test of `Handler` (cors.go line 207): the method is `OPTIONS` and the
`Access-Control-Request-Method` value has a non-zero length. -/
def RequestCtx.isPreflight (ctx : RequestCtx) : Bool :=
  ctx.IsOptions
    && decide ((ctx.Request.Header.Peek "Access-Control-Request-Method".toList).length ≠ 0)

/-- The request goes through the preflight branch of `Handler` (cors.go lines 208-220):
with any downstream handler, the outcome is that of `handlePreflight`, handed to the
downstream handler under pass-through and answered with status 204 otherwise. -/
def Cors.takesPreflightPath (c : Cors) (ctx : RequestCtx) : Prop :=
  ∀ h : RequestCtx → RequestCtx,
    c.Handler h ctx
      = if c.optionPassthrough then h (c.handlePreflight ctx)
        else (c.handlePreflight ctx).SetStatusCode 204

/-- The request goes through the actual-request branch of `Handler` (cors.go lines
223-225): with any downstream handler, the outcome is that of `handleActualRequest` handed
to the downstream handler. -/
def Cors.takesActualPath (c : Cors) (ctx : RequestCtx) : Prop :=
  ∀ h : RequestCtx → RequestCtx, c.Handler h ctx = h (c.handleActualRequest ctx)

/-- The downstream handler is invoked: the outcome of `Handler` depends on which downstream
handler it is given. -/
def Cors.invokesDownstream (c : Cors) (ctx : RequestCtx) : Prop :=
  ∃ h1 h2 : RequestCtx → RequestCtx, c.Handler h1 ctx ≠ c.Handler h2 ctx

/-- Origin mode AllowAll: the flag `allowedOriginsAll` is set. -/
def Cors.modeAllowAll (c : Cors) : Bool := c.allowedOriginsAll

/-- Origin mode ExplicitSet: the literal list or the wildcard list has an entry. -/
def Cors.modeExplicit (c : Cors) : Bool :=
  decide (c.allowedOrigins.length ≠ 0) || decide (c.allowedWOrigins.length ≠ 0)

/-- Origin mode Predicate: one of the two origin validator functions is configured. -/
def Cors.modePredicate (c : Cors) : Bool :=
  c.allowOriginFunc.isSome || c.allowOriginRequestFunc.isSome

/-- Exactly one of three conditions holds. -/
def exactlyOne (a b c : Bool) : Bool :=
  (a && !b && !c) || (!a && b && !c) || (!a && !b && c)

/-- The response header names the decision engine writes: `Vary` and the six
`Access-Control-*` names. -/
def corsHeaderNames : List Str :=
  ["Vary".toList, "Access-Control-Allow-Origin".toList, "Access-Control-Allow-Methods".toList,
    "Access-Control-Allow-Headers".toList, "Access-Control-Allow-Credentials".toList,
    "Access-Control-Max-Age".toList, "Access-Control-Expose-Headers".toList]

/-- The stored fields whose name is none of `corsHeaderNames`, in order. -/
def ResponseHeader.others (r : ResponseHeader) : List (Str × Str) :=
  r.h.filter (fun kv => decide (kv.1 ∉ corsHeaderNames))

/-! ## Standard library facts -/

theorem toLower_eq_star (c : Char) : c.toLower = '*' ↔ c = '*' := by
  constructor
  · intro h
    by_cases hc : c.toNat ≥ 65 ∧ c.toNat ≤ 90
    · exfalso
      have hcn : c = Char.ofNat c.toNat := (Char.ofNat_toNat c).symm
      generalize c.toNat = n at hc hcn
      subst hcn
      obtain ⟨h1, h2⟩ := hc
      interval_cases n <;> exact absurd h (by decide)
    · have : c.toLower = c := by
        unfold Char.toLower
        simp only [hc, if_false]
      rw [this] at h
      exact h
  · intro h; subst h; rfl

theorem star_mem_ToLower (s : Str) : '*' ∈ ToLower s ↔ '*' ∈ s := by
  unfold ToLower
  simp only [List.mem_map]
  constructor
  · rintro ⟨c, hc, h⟩
    rw [(toLower_eq_star c).mp h] at hc
    exact hc
  · intro h
    exact ⟨'*', h, rfl⟩

theorem ToLower_eq_star (s : Str) : ToLower s = "*".toList ↔ s = "*".toList := by
  unfold ToLower
  constructor
  · intro h
    match s, h with
    | [c], h =>
      have h1 : c.toLower = '*' := by
        have := List.head_eq_of_cons_eq h
        exact this
      rw [(toLower_eq_star c).mp h1]
      rfl
    | [], h => exact absurd h (by decide)
    | _ :: _ :: _, h => exact absurd (congrArg List.length h) (by simp)
  · intro h; subst h; rfl

theorem IndexByte_nonneg_iff (s : Str) (c : Char) : IndexByte s c ≥ 0 ↔ c ∈ s := by
  induction s with
  | nil => simp [IndexByte]
  | cons b s ih =>
    unfold IndexByte
    by_cases h : b = c
    · simp [h]
    · have h2 : ¬ c = b := fun e => h e.symm
      by_cases h3 : IndexByte s c ≥ 0
      · have := ih.mp h3
        simp only [h, if_false, h3, if_true, List.mem_cons, this, or_true, iff_true]
        omega
      · have : ¬ c ∈ s := fun e => h3 (ih.mpr e)
        simp [h, h2, h3, this]

theorem IndexByte_split (s : Str) (c : Char) (hc : c ∈ s) :
    s.take (IndexByte s c).toNat = s.takeWhile (fun b => b ≠ c)
      ∧ s.drop ((IndexByte s c).toNat + 1) = (s.dropWhile (fun b => b ≠ c)).drop 1 := by
  induction s with
  | nil => exact absurd hc (List.not_mem_nil c)
  | cons b s ih =>
    unfold IndexByte
    by_cases h : b = c
    · simp [h]
    · have hcs : c ∈ s := by
        rcases List.mem_cons.mp hc with e | e
        · exact absurd e.symm h
        · exact e
      have h3 : IndexByte s c ≥ 0 := (IndexByte_nonneg_iff s c).mpr hcs
      obtain ⟨ih1, ih2⟩ := ih hcs
      have h4 : (IndexByte s c + 1).toNat = (IndexByte s c).toNat + 1 := by omega
      simp only [h, if_false, h3, if_true, h4, List.take_succ_cons, List.drop_succ_cons]
      constructor
      · rw [ih1]; simp [List.takeWhile, h]
      · rw [ih2]; simp [List.dropWhile, h]

/-! ## Response header lemmas -/

theorem peekArg_setArg_same (l : List (Str × Str)) (k v : Str) :
    peekArg (setArg l k v) k = v := by
  induction l with
  | nil => simp [setArg, peekArg]
  | cons kv rest ih =>
    by_cases h : kv.1 = k
    · simp [setArg, peekArg, h]
    · simp [setArg, peekArg, h, ih]

theorem peekArg_setArg_ne (l : List (Str × Str)) (k k1 v : Str) (hk : k1 ≠ k) :
    peekArg (setArg l k1 v) k = peekArg l k := by
  induction l with
  | nil => simp [setArg, peekArg, hk]
  | cons kv rest ih =>
    by_cases h : kv.1 = k1
    · have h2 : kv.1 ≠ k := by rw [h]; exact hk
      simp [setArg, peekArg, h, h2, hk]
    · by_cases h3 : kv.1 = k
      · have h4 : ¬ k = k1 := fun e => hk e.symm
        simp [setArg, peekArg, h3, h4]
      · simp [setArg, peekArg, h, h3, ih]

theorem Peek_Set_same (r : ResponseHeader) (k v : Str) : (r.Set k v).Peek k = v :=
  peekArg_setArg_same r.h k v

theorem Peek_Set_ne (r : ResponseHeader) (k k1 v : Str) (hk : k1 ≠ k) :
    (r.Set k1 v).Peek k = r.Peek k :=
  peekArg_setArg_ne r.h k k1 v hk

theorem any_setArg (l : List (Str × Str)) (k k1 v : Str) :
    (setArg l k1 v).any (fun kv => kv.1 = k) = (l.any (fun kv => kv.1 = k) || decide (k1 = k)) := by
  induction l with
  | nil => simp [setArg]
  | cons kv rest ih =>
    by_cases h : kv.1 = k1
    · by_cases h2 : k1 = k
      · simp [setArg, h, h2]
      · simp [setArg, h, h2]
    · simp [setArg, h, ih, Bool.or_assoc]

theorem has_Set (r : ResponseHeader) (k k1 v : Str) :
    (r.Set k1 v).has k = (r.has k || decide (k1 = k)) :=
  any_setArg r.h k k1 v

theorem has_Add (r : ResponseHeader) (k k1 v : Str) :
    (r.Add k1 v).has k = (r.has k || decide (k1 = k)) := by
  simp [ResponseHeader.Add, ResponseHeader.has, List.any_append]

theorem filter_setArg_ne (l : List (Str × Str)) (k k1 v : Str) (hk : k1 ≠ k) :
    (setArg l k1 v).filter (fun kv => kv.1 = k) = l.filter (fun kv => kv.1 = k) := by
  induction l with
  | nil => simp [setArg, hk]
  | cons kv rest ih =>
    by_cases h : kv.1 = k1
    · have h2 : kv.1 ≠ k := by rw [h]; exact hk
      simp [setArg, h, h2, hk]
    · by_cases h3 : kv.1 = k
      · have h4 : ¬ k = k1 := fun e => hk e.symm
        simp [setArg, h3, h4, ih]
      · simp [setArg, h, h3, ih]

theorem values_Set_ne (r : ResponseHeader) (k k1 v : Str) (hk : k1 ≠ k) :
    (r.Set k1 v).values k = r.values k := by
  simp [ResponseHeader.Set, ResponseHeader.values, filter_setArg_ne r.h k k1 v hk]

theorem values_Add_same (r : ResponseHeader) (k v : Str) :
    (r.Add k v).values k = r.values k ++ [v] := by
  simp [ResponseHeader.Add, ResponseHeader.values, List.filter_append]

theorem values_preflightVary (r : ResponseHeader) :
    (preflightVary r).values "Vary".toList
      = r.values "Vary".toList
          ++ ["Origin".toList, "Access-Control-Request-Method".toList,
              "Access-Control-Request-Headers".toList] := by
  simp [preflightVary, values_Add_same]

theorem has_preflightVary (r : ResponseHeader) (k : Str) (hk : "Vary".toList ≠ k) :
    (preflightVary r).has k = r.has k := by
  have h : decide ("Vary".toList = k) = false := decide_eq_false hk
  unfold preflightVary
  rw [has_Add, has_Add, has_Add, h]
  simp

/-! ## Policy construction -/

theorem newOrigins_star (L : List Str) (c : Cors) (h : "*".toList ∈ L) :
    newOrigins L c
      = { c with allowedOriginsAll := true, allowedOrigins := [], allowedWOrigins := [] } := by
  induction L generalizing c with
  | nil => exact absurd h (List.not_mem_nil _)
  | cons e rest ih =>
    unfold newOrigins
    by_cases he : ToLower e = "*".toList
    · simp only [he, if_true]
    · have hrest : "*".toList ∈ rest := by
        rcases List.mem_cons.mp h with e1 | e1
        · exact absurd ((ToLower_eq_star e).mpr e1.symm) he
        · exact e1
      simp only [he, if_false]
      split_ifs <;> rw [ih _ hrest]

theorem newOrigins_nostar (L : List Str) (c : Cors) (h : "*".toList ∉ L) :
    newOrigins L c
      = { c with
          allowedOrigins := c.allowedOrigins ++ (L.filter (fun e => '*' ∉ e)).map ToLower
          allowedWOrigins :=
            c.allowedWOrigins
              ++ (L.filter (fun e => '*' ∈ e)).map (fun e => splitWildcard (ToLower e)) } := by
  induction L generalizing c with
  | nil => simp [newOrigins]
  | cons e rest ih =>
    unfold newOrigins
    have he : ¬ ToLower e = "*".toList := by
      intro e1
      exact h (by rw [(ToLower_eq_star e).mp e1]; exact List.mem_cons_self _ _)
    have hrest : "*".toList ∉ rest := fun e1 => h (List.mem_cons_of_mem _ e1)
    simp only [he, if_false]
    by_cases hi : IndexByte (ToLower e) '*' ≥ 0
    · have hm : '*' ∈ ToLower e := (IndexByte_nonneg_iff _ _).mp hi
      have hm2 : '*' ∈ e := (star_mem_ToLower e).mp hm
      obtain ⟨s1, s2⟩ := IndexByte_split (ToLower e) '*' hm
      simp only [hi, if_true]
      rw [ih _ hrest, s1, s2]
      simp [List.filter_cons, hm2, splitWildcard]
    · have hm : ¬ '*' ∈ ToLower e := fun e1 => hi ((IndexByte_nonneg_iff _ _).mpr e1)
      have hm2 : ¬ '*' ∈ e := fun e1 => hm ((star_mem_ToLower e).mpr e1)
      simp only [hi, if_false]
      rw [ih _ hrest]
      simp [List.filter_cons, hm2]

theorem newHeadersAll_eq (L : List Str) (c : Cors) :
    newHeadersAll L c
      = if "*".toList ∈ L then { c with allowedHeadersAll := true, allowedHeaders := [] }
        else c := by
  induction L with
  | nil => simp [newHeadersAll]
  | cons e rest ih =>
    unfold newHeadersAll
    by_cases he : e = "*".toList
    · simp [he]
    · have he2 : ¬ "*".toList = e := fun e1 => he e1.symm
      simp only [he, if_false, ih, List.mem_cons, he2, false_or]

theorem New_funcs (o : Options) :
    (New o).allowOriginFunc = o.AllowOriginFunc
      ∧ (New o).allowOriginRequestFunc = o.AllowOriginRequestFunc := by
  unfold New
  simp only [newHeadersAll_eq]
  by_cases h : "*".toList ∈ o.AllowedOrigins
  · simp only [newOrigins_star _ _ h]
    constructor <;> split_ifs <;> rfl
  · simp only [newOrigins_nostar _ _ h]
    constructor <;> split_ifs <;> rfl

theorem New_origins_empty (o : Options) (h : o.AllowedOrigins = []) :
    (New o).allowedOriginsAll
        = (o.AllowOriginFunc.isNone && o.AllowOriginRequestFunc.isNone)
      ∧ (New o).allowedOrigins = [] ∧ (New o).allowedWOrigins = [] := by
  unfold New
  simp only [newHeadersAll_eq, h, List.length_nil, if_true]
  cases h1 : (o.AllowOriginFunc.isNone && o.AllowOriginRequestFunc.isNone)
  · simp only [Bool.false_eq_true, if_false]
    refine ⟨?_, ?_, ?_⟩ <;> split_ifs <;> rfl
  · simp only [if_true]
    refine ⟨?_, ?_, ?_⟩ <;> split_ifs <;> rfl

theorem New_origins_star (o : Options) (h : "*".toList ∈ o.AllowedOrigins) :
    (New o).allowedOriginsAll = true
      ∧ (New o).allowedOrigins = [] ∧ (New o).allowedWOrigins = [] := by
  have hne : ¬ o.AllowedOrigins.length = 0 := by
    intro e
    rw [List.length_eq_zero.mp e] at h
    exact absurd h (List.not_mem_nil _)
  unfold New
  simp only [newHeadersAll_eq, hne, if_false, newOrigins_star _ _ h]
  refine ⟨?_, ?_, ?_⟩ <;> split_ifs <;> rfl

theorem New_origins_nostar (o : Options) (hne : o.AllowedOrigins ≠ [])
    (h : "*".toList ∉ o.AllowedOrigins) :
    (New o).allowedOriginsAll = false
      ∧ (New o).allowedOrigins = (o.AllowedOrigins.filter (fun e => '*' ∉ e)).map ToLower
      ∧ (New o).allowedWOrigins
          = (o.AllowedOrigins.filter (fun e => '*' ∈ e)).map
              (fun e => splitWildcard (ToLower e)) := by
  have hne2 : ¬ o.AllowedOrigins.length = 0 := fun e => hne (List.length_eq_zero.mp e)
  unfold New
  simp only [newHeadersAll_eq, hne2, if_false, newOrigins_nostar _ _ h]
  refine ⟨?_, ?_, ?_⟩ <;> split_ifs <;> simp

theorem New_methods (o : Options) :
    (New o).allowedMethods
      = if o.AllowedMethods.length = 0 then ["GET".toList, "POST".toList, "HEAD".toList]
        else convert o.AllowedMethods ToUpper := by
  unfold New
  simp only []
  split_ifs <;> rfl

/-! ## Admissibility loops as membership -/

theorem originInList_iff (l : List Str) (origin : Str) :
    originInList l origin = true ↔ origin ∈ l := by
  induction l with
  | nil => simp [originInList]
  | cons o rest ih =>
    unfold originInList
    by_cases h : o = origin
    · simp [h]
    · have h2 : ¬ origin = o := fun e => h e.symm
      simp [h, h2, ih]

theorem originInWildcards_iff (l : List wildcard) (origin : Str) :
    originInWildcards l origin = true ↔ ∃ w ∈ l, w.matches origin = true := by
  induction l with
  | nil => simp [originInWildcards]
  | cons w rest ih =>
    unfold originInWildcards
    by_cases h : w.matches origin = true
    · simp [h]
    · simp [h, ih]

theorem methodInList_iff (l : List Str) (method : Str) :
    methodInList l method = true ↔ method ∈ l := by
  induction l with
  | nil => simp [methodInList]
  | cons m rest ih =>
    unfold methodInList
    by_cases h : m = method
    · simp [h]
    · have h2 : ¬ method = m := fun e => h e.symm
      simp [h, h2, ih]

theorem headerFound_iff (l : List Str) (header : Str) :
    headerFound l header = true ↔ header ∈ l := by
  induction l with
  | nil => simp [headerFound]
  | cons m rest ih =>
    unfold headerFound
    by_cases h : m = header
    · simp [h]
    · have h2 : ¬ header = m := fun e => h e.symm
      simp [h, h2, ih]

theorem headersLoop_iff (allowed requested : List Str) :
    headersLoop allowed requested = true
      ↔ ∀ h ∈ requested, CanonicalHeaderKey h ∈ allowed := by
  induction requested with
  | nil => simp [headersLoop]
  | cons r rest ih =>
    unfold headersLoop
    by_cases h : headerFound allowed (CanonicalHeaderKey r) = true
    · have h2 := (headerFound_iff _ _).mp h
      simp [h, h2, ih]
    · have h2 : ¬ CanonicalHeaderKey r ∈ allowed := fun e => h ((headerFound_iff _ _).mpr e)
      simp [h, h2]

theorem isMethodAllowed_true_iff (c : Cors) (m : Str) :
    c.isMethodAllowed m = true
      ↔ c.allowedMethods ≠ [] ∧ (ToUpper m = "OPTIONS".toList ∨ ToUpper m ∈ c.allowedMethods) := by
  unfold Cors.isMethodAllowed
  by_cases h0 : c.allowedMethods.length = 0
  · have h1 : c.allowedMethods = [] := List.length_eq_zero.mp h0
    simp [h1]
  · have h1 : c.allowedMethods ≠ [] := fun e => h0 (by rw [e]; rfl)
    simp only [h0, if_false]
    by_cases h2 : ToUpper m = "OPTIONS".toList
    · simp [h1, h2]
    · simp only [h2, if_false, methodInList_iff, false_or]
      exact ⟨fun h => ⟨h1, h⟩, fun h => h.2⟩

theorem areHeadersAllowed_true_iff (c : Cors) (requestedHeaders : List Str) :
    c.areHeadersAllowed requestedHeaders = true
      ↔ c.allowedHeadersAll = true
          ∨ ∀ h ∈ requestedHeaders, CanonicalHeaderKey h ∈ c.allowedHeaders := by
  unfold Cors.areHeadersAllowed
  by_cases h0 : c.allowedHeadersAll = true
  · simp [h0]
  · by_cases h1 : requestedHeaders.length = 0
    · have h2 : requestedHeaders = [] := List.length_eq_zero.mp h1
      simp [h2]
    · simp only [h0, h1, decide_False, Bool.or_false, Bool.false_eq_true, if_false, false_or]
      exact headersLoop_iff _ _

/-! ## The two decision paths -/

theorem withHeader_withHeader (ctx : RequestCtx) (a b : ResponseHeader) :
    (ctx.withHeader a).withHeader b = ctx.withHeader b := rfl

theorem handlePreflight_rejected (c : Cors) (ctx : RequestCtx) (hopt : ctx.IsOptions = true)
    (hg : c.preflightGranted ctx = false) :
    c.handlePreflight ctx = ctx.withHeader (preflightVary ctx.Response.Header) := by
  have hw : ∀ hd : ResponseHeader, (ctx.withHeader hd).Request = ctx.Request := fun _ => rfl
  unfold Cors.handlePreflight
  simp only [hopt, Bool.not_true, Bool.false_eq_true, if_false, hw]
  by_cases h1 : (ctx.Request.Header.Peek "Origin".toList).length = 0
  · simp only [h1, if_true]; rfl
  · have h1b : ctx.Request.Header.Peek "Origin".toList ≠ [] := by
      intro e; apply h1; rw [e]; rfl
    simp only [h1, if_false]
    cases h2 : c.isOriginAllowed (ctx.withHeader (preflightVary ctx.Response.Header))
        (ctx.Request.Header.Peek "Origin".toList)
    · simp only [preflightVary] at h2
      simp only [h2, Bool.not_false, if_true]; rfl
    · cases h3 : c.isMethodAllowed
          (ctx.Request.Header.Peek "Access-Control-Request-Method".toList)
      · simp only [preflightVary] at h2
        simp only [h2, h3, Bool.not_false, Bool.not_true, Bool.false_eq_true, if_true, if_false]
        rfl
      · cases h4 : c.areHeadersAllowed
            (parseHeaderList (ctx.Request.Header.Peek "Access-Control-Request-Headers".toList))
        · simp only [preflightVary] at h2
          simp only [h2, h3, h4, Bool.not_false, Bool.not_true, Bool.false_eq_true, if_true,
            if_false]
          rfl
        · exfalso
          have : c.preflightGranted ctx = true := by
            unfold Cors.preflightGranted
            rw [h2, h3, h4, decide_eq_true h1b]; rfl
          rw [this] at hg
          exact Bool.noConfusion hg

theorem handlePreflight_granted (c : Cors) (ctx : RequestCtx) (hopt : ctx.IsOptions = true)
    (hg : c.preflightGranted ctx = true) :
    c.handlePreflight ctx
      = ctx.withHeader
          (c.preflightHeaders (ctx.Request.Header.Peek "Origin".toList)
            (ctx.Request.Header.Peek "Access-Control-Request-Method".toList)
            (parseHeaderList (ctx.Request.Header.Peek "Access-Control-Request-Headers".toList))
            (preflightVary ctx.Response.Header)) := by
  have hw : ∀ hd : ResponseHeader, (ctx.withHeader hd).Request = ctx.Request := fun _ => rfl
  unfold Cors.preflightGranted at hg
  simp only [Bool.and_eq_true, decide_eq_true_eq] at hg
  obtain ⟨⟨⟨h1, h2⟩, h3⟩, h4⟩ := hg
  have h1b : ¬ (ctx.Request.Header.Peek "Origin".toList).length = 0 := by
    intro e; exact h1 (List.length_eq_zero.mp e)
  simp only [preflightVary] at h2
  unfold Cors.handlePreflight
  simp only [hopt, Bool.not_true, Bool.false_eq_true, if_false, hw, h1b, h2, h3, h4]
  rfl

theorem handleActualRequest_rejected (c : Cors) (ctx : RequestCtx)
    (hg : c.actualGranted ctx = false) :
    c.handleActualRequest ctx
      = ctx.withHeader (ctx.Response.Header.Add "Vary".toList "Origin".toList) := by
  have hw : ∀ hd : ResponseHeader, (ctx.withHeader hd).Request = ctx.Request := fun _ => rfl
  unfold Cors.handleActualRequest
  simp only [hw]
  by_cases h1 : (ctx.Request.Header.Peek "Origin".toList).length = 0
  · simp only [h1, if_true]
  · have h1b : ctx.Request.Header.Peek "Origin".toList ≠ [] := by
      intro e; apply h1; rw [e]; rfl
    simp only [h1, if_false]
    cases h2 : c.isOriginAllowed
        (ctx.withHeader (ctx.Response.Header.Add "Vary".toList "Origin".toList))
        (ctx.Request.Header.Peek "Origin".toList)
    · simp only [Bool.not_false, if_true]
    · cases h3 : c.isMethodAllowed ctx.Request.Header.Method
      · simp only [Bool.not_false, Bool.not_true, Bool.false_eq_true, if_true, if_false]
      · exfalso
        have : c.actualGranted ctx = true := by
          unfold Cors.actualGranted
          rw [h2, h3, decide_eq_true h1b]; rfl
        rw [this] at hg
        exact Bool.noConfusion hg

theorem handleActualRequest_granted (c : Cors) (ctx : RequestCtx)
    (hg : c.actualGranted ctx = true) :
    c.handleActualRequest ctx
      = ctx.withHeader
          (c.actualHeaders (ctx.Request.Header.Peek "Origin".toList)
            (ctx.Response.Header.Add "Vary".toList "Origin".toList)) := by
  have hw : ∀ hd : ResponseHeader, (ctx.withHeader hd).Request = ctx.Request := fun _ => rfl
  unfold Cors.actualGranted at hg
  simp only [Bool.and_eq_true, decide_eq_true_eq] at hg
  obtain ⟨⟨h1, h2⟩, h3⟩ := hg
  have h1b : ¬ (ctx.Request.Header.Peek "Origin".toList).length = 0 := by
    intro e; exact h1 (List.length_eq_zero.mp e)
  unfold Cors.handleActualRequest
  simp only [hw, h1b, h2, h3, Bool.not_true, Bool.false_eq_true, if_false]
  rfl

theorem values_preflightHeaders (c : Cors) (origin reqMethod : Str) (reqHeaders : List Str)
    (hd : ResponseHeader) :
    (c.preflightHeaders origin reqMethod reqHeaders hd).values "Vary".toList
      = hd.values "Vary".toList := by
  unfold Cors.preflightHeaders
  simp only []
  split_ifs <;> simp (disch := decide) only [values_Set_ne]

theorem has_preflightHeaders (c : Cors) (origin reqMethod : Str) (reqHeaders : List Str)
    (hd : ResponseHeader) :
    (c.preflightHeaders origin reqMethod reqHeaders hd).has "Access-Control-Allow-Origin".toList
        = true
      ∧ (c.preflightHeaders origin reqMethod reqHeaders hd).has
          "Access-Control-Allow-Methods".toList = true := by
  unfold Cors.preflightHeaders
  simp only []
  constructor <;> split_ifs <;> simp [has_Set]

theorem Peek_preflightHeaders (c : Cors) (origin reqMethod : Str) (reqHeaders : List Str)
    (hd : ResponseHeader) :
    (c.preflightHeaders origin reqMethod reqHeaders hd).Peek "Access-Control-Allow-Origin".toList
      = if c.allowedOriginsAll then "*".toList else origin := by
  unfold Cors.preflightHeaders
  simp only []
  split_ifs <;> simp (disch := decide) only [Peek_Set_ne, Peek_Set_same]

theorem values_actualHeaders (c : Cors) (origin : Str) (hd : ResponseHeader) :
    (c.actualHeaders origin hd).values "Vary".toList = hd.values "Vary".toList := by
  unfold Cors.actualHeaders
  simp only []
  split_ifs <;> simp (disch := decide) only [values_Set_ne]

theorem has_actualHeaders (c : Cors) (origin : Str) (hd : ResponseHeader) :
    (c.actualHeaders origin hd).has "Access-Control-Allow-Origin".toList = true := by
  unfold Cors.actualHeaders
  simp only []
  split_ifs <;> simp [has_Set]

theorem Peek_actualHeaders (c : Cors) (origin : Str) (hd : ResponseHeader) :
    (c.actualHeaders origin hd).Peek "Access-Control-Allow-Origin".toList
      = if c.allowedOriginsAll then "*".toList else origin := by
  unfold Cors.actualHeaders
  simp only []
  split_ifs <;> simp (disch := decide) only [Peek_Set_ne, Peek_Set_same]

/-! ## Header writes of a granted request -/

theorem has_ite_Set (b : Prop) [Decidable b] (r : ResponseHeader) (k1 v k : Str) :
    (if b then r.Set k1 v else r).has k = (r.has k || (decide b && decide (k1 = k))) := by
  by_cases hb : b
  · simp only [hb, if_true, has_Set, decide_True, Bool.true_and]
  · simp only [hb, if_false, decide_False, Bool.false_and, Bool.or_false]

theorem values_ite_Set_ne (b : Prop) [Decidable b] (r : ResponseHeader) (k1 v k : Str)
    (hk : b → k1 ≠ k) : (if b then r.Set k1 v else r).values k = r.values k := by
  by_cases hb : b
  · simp only [hb, if_true, values_Set_ne _ _ _ _ (hk hb)]
  · simp only [hb, if_false]

theorem Peek_ite_Set_ne (b : Prop) [Decidable b] (r : ResponseHeader) (k1 v k : Str)
    (hk : k1 ≠ k) : (if b then r.Set k1 v else r).Peek k = r.Peek k := by
  by_cases hb : b
  · simp only [hb, if_true, Peek_Set_ne _ _ _ _ hk]
  · simp only [hb, if_false]

theorem has_preflightHeaders_eq (c : Cors) (origin reqMethod : Str) (reqHeaders : List Str)
    (hd : ResponseHeader) (k : Str) :
    (c.preflightHeaders origin reqMethod reqHeaders hd).has k
      = (hd.has k
          || decide ("Access-Control-Allow-Origin".toList = k)
          || decide ("Access-Control-Allow-Methods".toList = k)
          || (decide (reqHeaders.length > 0) && decide ("Access-Control-Allow-Headers".toList = k))
          || (decide (c.allowCredentials = true)
                && decide ("Access-Control-Allow-Credentials".toList = k))
          || (decide (c.maxAge > 0) && decide ("Access-Control-Max-Age".toList = k))) := by
  unfold Cors.preflightHeaders
  simp only [has_ite_Set, has_Set]
  by_cases h : c.allowedOriginsAll = true
  · simp only [h, if_true, has_Set]
  · simp only [h, Bool.false_eq_true, if_false, has_Set]

theorem values_preflightHeaders_of_ne (c : Cors) (origin reqMethod : Str)
    (reqHeaders : List Str) (hd : ResponseHeader) (k : Str)
    (h1 : "Access-Control-Allow-Origin".toList ≠ k)
    (h2 : "Access-Control-Allow-Methods".toList ≠ k)
    (h3 : reqHeaders.length > 0 → "Access-Control-Allow-Headers".toList ≠ k)
    (h4 : c.allowCredentials = true → "Access-Control-Allow-Credentials".toList ≠ k)
    (h5 : c.maxAge > 0 → "Access-Control-Max-Age".toList ≠ k) :
    (c.preflightHeaders origin reqMethod reqHeaders hd).values k = hd.values k := by
  unfold Cors.preflightHeaders
  simp only []
  rw [values_ite_Set_ne _ _ _ _ _ h5, values_ite_Set_ne _ _ _ _ _ h4,
    values_ite_Set_ne _ _ _ _ _ h3, values_Set_ne _ _ _ _ h2]
  by_cases h : c.allowedOriginsAll = true
  · simp only [h, if_true, values_Set_ne _ _ _ _ h1]
  · simp only [h, Bool.false_eq_true, if_false, values_Set_ne _ _ _ _ h1]

theorem Peek_preflightHeaders_methods (c : Cors) (origin reqMethod : Str)
    (reqHeaders : List Str) (hd : ResponseHeader) :
    (c.preflightHeaders origin reqMethod reqHeaders hd).Peek
        "Access-Control-Allow-Methods".toList = ToUpper reqMethod := by
  unfold Cors.preflightHeaders
  simp only []
  rw [Peek_ite_Set_ne _ _ _ _ _ (by decide), Peek_ite_Set_ne _ _ _ _ _ (by decide),
    Peek_ite_Set_ne _ _ _ _ _ (by decide), Peek_Set_same]

theorem Peek_preflightHeaders_headers (c : Cors) (origin reqMethod : Str)
    (reqHeaders : List Str) (hd : ResponseHeader) (h : reqHeaders.length > 0) :
    (c.preflightHeaders origin reqMethod reqHeaders hd).Peek
        "Access-Control-Allow-Headers".toList = Join reqHeaders ", ".toList := by
  unfold Cors.preflightHeaders
  simp only []
  rw [Peek_ite_Set_ne _ _ _ _ _ (by decide), Peek_ite_Set_ne _ _ _ _ _ (by decide)]
  simp only [h, if_true, Peek_Set_same]

theorem Peek_preflightHeaders_credentials (c : Cors) (origin reqMethod : Str)
    (reqHeaders : List Str) (hd : ResponseHeader) (h : c.allowCredentials = true) :
    (c.preflightHeaders origin reqMethod reqHeaders hd).Peek
        "Access-Control-Allow-Credentials".toList = "true".toList := by
  unfold Cors.preflightHeaders
  simp only []
  rw [Peek_ite_Set_ne _ _ _ _ _ (by decide)]
  simp only [h, if_true, Peek_Set_same]

theorem Peek_preflightHeaders_maxAge (c : Cors) (origin reqMethod : Str)
    (reqHeaders : List Str) (hd : ResponseHeader) (h : c.maxAge > 0) :
    (c.preflightHeaders origin reqMethod reqHeaders hd).Peek
        "Access-Control-Max-Age".toList = Itoa c.maxAge := by
  unfold Cors.preflightHeaders
  simp only [h, if_true, Peek_Set_same]

theorem has_actualHeaders_eq (c : Cors) (origin : Str) (hd : ResponseHeader) (k : Str) :
    (c.actualHeaders origin hd).has k
      = (hd.has k
          || decide ("Access-Control-Allow-Origin".toList = k)
          || (decide (c.exposedHeaders.length > 0)
                && decide ("Access-Control-Expose-Headers".toList = k))
          || (decide (c.allowCredentials = true)
                && decide ("Access-Control-Allow-Credentials".toList = k))) := by
  unfold Cors.actualHeaders
  simp only [has_ite_Set]
  by_cases h : c.allowedOriginsAll = true
  · simp only [h, if_true, has_Set]
  · simp only [h, Bool.false_eq_true, if_false, has_Set]

theorem values_actualHeaders_of_ne (c : Cors) (origin : Str) (hd : ResponseHeader) (k : Str)
    (h1 : "Access-Control-Allow-Origin".toList ≠ k)
    (h2 : c.exposedHeaders.length > 0 → "Access-Control-Expose-Headers".toList ≠ k)
    (h3 : c.allowCredentials = true → "Access-Control-Allow-Credentials".toList ≠ k) :
    (c.actualHeaders origin hd).values k = hd.values k := by
  unfold Cors.actualHeaders
  simp only []
  rw [values_ite_Set_ne _ _ _ _ _ h3, values_ite_Set_ne _ _ _ _ _ h2]
  by_cases h : c.allowedOriginsAll = true
  · simp only [h, if_true, values_Set_ne _ _ _ _ h1]
  · simp only [h, Bool.false_eq_true, if_false, values_Set_ne _ _ _ _ h1]

theorem Peek_actualHeaders_expose (c : Cors) (origin : Str) (hd : ResponseHeader)
    (h : c.exposedHeaders.length > 0) :
    (c.actualHeaders origin hd).Peek "Access-Control-Expose-Headers".toList
      = Join c.exposedHeaders ", ".toList := by
  unfold Cors.actualHeaders
  simp only []
  rw [Peek_ite_Set_ne _ _ _ _ _ (by decide)]
  simp only [h, if_true, Peek_Set_same]

theorem Peek_actualHeaders_credentials (c : Cors) (origin : Str) (hd : ResponseHeader)
    (h : c.allowCredentials = true) :
    (c.actualHeaders origin hd).Peek "Access-Control-Allow-Credentials".toList
      = "true".toList := by
  unfold Cors.actualHeaders
  simp only [h, if_true, Peek_Set_same]

/-! ## Header allow-list -/

theorem toLower_cases (c x : Char) (h : c.toLower = x) :
    c = x ∨ c = Char.ofNat (x.toNat - 32) := by
  by_cases hc : c.toNat ≥ 65 ∧ c.toNat ≤ 90
  · have hcn : c = Char.ofNat c.toNat := (Char.ofNat_toNat c).symm
    generalize c.toNat = n at hc hcn
    subst hcn
    subst h
    obtain ⟨h1, h2⟩ := hc
    right
    interval_cases n <;> decide
  · have : c.toLower = c := by
      unfold Char.toLower
      simp only [hc, if_false]
    rw [this] at h
    exact Or.inl h

theorem CanonicalHeaderKey_origin (s : Str) (h : ToLower s = "origin".toList) :
    CanonicalHeaderKey s = "Origin".toList := by
  unfold ToLower at h
  match s, h with
  | [c1, c2, c3, c4, c5, c6], h =>
    simp only [List.map_cons, List.map_nil, String.toList, List.cons.injEq, and_true] at h
    obtain ⟨h1, h2, h3, h4, h5, h6⟩ := h
    rcases toLower_cases _ _ h1 with e1 | e1 <;> rcases toLower_cases _ _ h2 with e2 | e2 <;>
      rcases toLower_cases _ _ h3 with e3 | e3 <;> rcases toLower_cases _ _ h4 with e4 | e4 <;>
      rcases toLower_cases _ _ h5 with e5 | e5 <;> rcases toLower_cases _ _ h6 with e6 | e6 <;>
      (rw [e1, e2, e3, e4, e5, e6]; decide)
  | [], h => exact absurd (congrArg List.length h) (by decide)
  | [_], h => exact absurd (congrArg List.length h) (by simp)
  | [_, _], h => exact absurd (congrArg List.length h) (by simp)
  | [_, _, _], h => exact absurd (congrArg List.length h) (by simp)
  | [_, _, _, _], h => exact absurd (congrArg List.length h) (by simp)
  | [_, _, _, _, _], h => exact absurd (congrArg List.length h) (by simp)
  | _ :: _ :: _ :: _ :: _ :: _ :: _ :: _, h =>
    exact absurd (congrArg List.length h) (by simp)

theorem newOrigins_headers (L : List Str) (c : Cors) :
    (newOrigins L c).allowedHeadersAll = c.allowedHeadersAll
      ∧ (newOrigins L c).allowedHeaders = c.allowedHeaders := by
  by_cases h : "*".toList ∈ L
  · rw [newOrigins_star _ _ h]; exact ⟨rfl, rfl⟩
  · rw [newOrigins_nostar _ _ h]; exact ⟨rfl, rfl⟩

theorem New_headers (o : Options) :
    (New o).allowedHeadersAll = decide ("*".toList ∈ o.AllowedHeaders)
      ∧ (New o).allowedHeaders
          = if o.AllowedHeaders.length = 0 then
              ["Origin".toList, "Accept".toList, "Content-Type".toList,
                "X-Requested-With".toList]
            else if "*".toList ∈ o.AllowedHeaders then []
            else convert (o.AllowedHeaders ++ ["Origin".toList]) CanonicalHeaderKey := by
  unfold New
  simp only [newHeadersAll_eq]
  by_cases h0 : o.AllowedHeaders.length = 0
  · have h1 : "*".toList ∉ o.AllowedHeaders := by
      rw [List.length_eq_zero.mp h0]; exact List.not_mem_nil _
    simp only [h0, if_true, h1, decide_False]
    by_cases h2 : o.AllowedOrigins.length = 0
    · simp only [h2, if_true]
      constructor <;> split_ifs <;> rfl
    · simp only [h2, if_false]
      constructor <;> split_ifs <;>
        first
          | exact (newOrigins_headers _ _).1
          | rfl
  · simp only [h0, if_false]
    by_cases h1 : "*".toList ∈ o.AllowedHeaders
    · simp only [h1, if_true, decide_True]
      constructor <;> split_ifs <;> rfl
    · simp only [h1, if_false, decide_False]
      by_cases h2 : o.AllowedOrigins.length = 0
      · simp only [h2, if_true]
        constructor <;> split_ifs <;> rfl
      · simp only [h2, if_false]
        constructor <;> split_ifs <;>
          first
            | exact (newOrigins_headers _ _).1
            | rfl

/-! ## Dispatch of the middleware -/

theorem isPreflight_iff (ctx : RequestCtx) :
    ctx.isPreflight = true
      ↔ ctx.Request.Header.Method = "OPTIONS".toList
          ∧ ctx.Request.Header.Peek "Access-Control-Request-Method".toList ≠ [] := by
  unfold RequestCtx.isPreflight RequestCtx.IsOptions
  simp only [Bool.and_eq_true, decide_eq_true_eq, ne_eq, List.length_eq_zero]

theorem Handler_preflight (c : Cors) (h : RequestCtx → RequestCtx) (ctx : RequestCtx)
    (hp : ctx.isPreflight = true) :
    c.Handler h ctx
      = if c.optionPassthrough then h (c.handlePreflight ctx)
        else (c.handlePreflight ctx).SetStatusCode 204 := by
  unfold RequestCtx.isPreflight at hp
  unfold Cors.Handler
  simp only [hp, if_true]

theorem Handler_actual (c : Cors) (h : RequestCtx → RequestCtx) (ctx : RequestCtx)
    (hp : ctx.isPreflight = false) :
    c.Handler h ctx = h (c.handleActualRequest ctx) := by
  unfold RequestCtx.isPreflight at hp
  unfold Cors.Handler
  simp only [hp, Bool.false_eq_true, if_false]

theorem handlePreflight_not_options (c : Cors) (ctx : RequestCtx)
    (hopt : ctx.IsOptions = false) : c.handlePreflight ctx = ctx := by
  unfold Cors.handlePreflight
  simp only [hopt, Bool.not_false, if_true]

theorem values_handlePreflight (c : Cors) (ctx : RequestCtx) (hopt : ctx.IsOptions = true) :
    (c.handlePreflight ctx).Response.Header.values "Vary".toList
      = ctx.Response.Header.values "Vary".toList
          ++ ["Origin".toList, "Access-Control-Request-Method".toList,
              "Access-Control-Request-Headers".toList] := by
  have hwh : ∀ hd : ResponseHeader, (ctx.withHeader hd).Response.Header = hd := fun _ => rfl
  cases hg : c.preflightGranted ctx
  · rw [handlePreflight_rejected c ctx hopt hg, hwh, values_preflightVary]
  · rw [handlePreflight_granted c ctx hopt hg, hwh, values_preflightHeaders,
      values_preflightVary]

theorem values_handleActualRequest (c : Cors) (ctx : RequestCtx) :
    (c.handleActualRequest ctx).Response.Header.values "Vary".toList
      = ctx.Response.Header.values "Vary".toList ++ ["Origin".toList] := by
  have hwh : ∀ hd : ResponseHeader, (ctx.withHeader hd).Response.Header = hd := fun _ => rfl
  cases hg : c.actualGranted ctx
  · rw [handleActualRequest_rejected c ctx hg, hwh, values_Add_same]
  · rw [handleActualRequest_granted c ctx hg, hwh, values_actualHeaders, values_Add_same]

theorem preflight_ne_actual (c : Cors) (ctx : RequestCtx) (code : Nat) :
    c.handleActualRequest ctx ≠ c.handlePreflight ctx
      ∧ c.handleActualRequest ctx ≠ (c.handlePreflight ctx).SetStatusCode code := by
  have key : (c.handleActualRequest ctx).Response.Header.values "Vary".toList
      ≠ (c.handlePreflight ctx).Response.Header.values "Vary".toList := by
    intro e
    have e2 := congrArg List.length e
    rw [values_handleActualRequest] at e2
    cases hopt : ctx.IsOptions
    · rw [handlePreflight_not_options c ctx hopt] at e2
      simp at e2
    · rw [values_handlePreflight c ctx hopt] at e2
      simp at e2
  constructor
  · intro e; exact key (by rw [e])
  · intro e
    apply key
    rw [e]
    rfl

theorem takesPreflightPath_iff (c : Cors) (ctx : RequestCtx) :
    c.takesPreflightPath ctx ↔ ctx.isPreflight = true := by
  constructor
  · intro h
    cases hp : ctx.isPreflight
    · exfalso
      have e := h id
      rw [Handler_actual c id ctx hp] at e
      cases hpass : c.optionPassthrough
      · rw [hpass] at e
        simp only [Bool.false_eq_true, if_false, id] at e
        exact (preflight_ne_actual c ctx 204).2 e
      · rw [hpass] at e
        simp only [if_true, id] at e
        exact (preflight_ne_actual c ctx 204).1 e
    · rfl
  · intro hp h
    exact Handler_preflight c h ctx hp

theorem takesActualPath_iff (c : Cors) (ctx : RequestCtx) :
    c.takesActualPath ctx ↔ ctx.isPreflight = false := by
  constructor
  · intro h
    cases hp : ctx.isPreflight
    · rfl
    · exfalso
      have e := h id
      rw [Handler_preflight c id ctx hp] at e
      cases hpass : c.optionPassthrough
      · rw [hpass] at e
        simp only [Bool.false_eq_true, if_false, id] at e
        exact (preflight_ne_actual c ctx 204).2 e.symm
      · rw [hpass] at e
        simp only [if_true, id] at e
        exact (preflight_ne_actual c ctx 204).1 e.symm
  · intro hp h
    exact Handler_actual c h ctx hp

theorem SetStatusCode_ne (x : RequestCtx) :
    x ≠ x.SetStatusCode (x.Response.statusCode + 1) := by
  intro e
  have e2 := congrArg (fun y => y.Response.statusCode) e
  simp only [RequestCtx.SetStatusCode] at e2
  omega

theorem invokesDownstream_iff (c : Cors) (ctx : RequestCtx) :
    c.invokesDownstream ctx ↔ ctx.isPreflight = false ∨ c.optionPassthrough = true := by
  unfold Cors.invokesDownstream
  constructor
  · rintro ⟨h1, h2, hne⟩
    cases hp : ctx.isPreflight
    · exact Or.inl rfl
    · cases hpass : c.optionPassthrough
      · exfalso
        apply hne
        rw [Handler_preflight c h1 ctx hp, Handler_preflight c h2 ctx hp, hpass]
        rfl
      · exact Or.inr rfl
  · intro h
    refine ⟨id, fun y => y.SetStatusCode (y.Response.statusCode + 1), ?_⟩
    cases hp : ctx.isPreflight
    · rw [Handler_actual c _ ctx hp, Handler_actual c _ ctx hp]
      exact SetStatusCode_ne _
    · have hpass : c.optionPassthrough = true := by
        rcases h with h | h
        · rw [hp] at h; exact absurd h (by decide)
        · exact h
      rw [Handler_preflight c _ ctx hp, Handler_preflight c _ ctx hp, hpass]
      simp only [if_true]
      exact SetStatusCode_ne _

/-! ## Presence and values of a header after a decision -/

theorem values_Add_ne (r : ResponseHeader) (k k1 v : Str) (hk : k1 ≠ k) :
    (r.Add k1 v).values k = r.values k := by
  simp [ResponseHeader.Add, ResponseHeader.values, List.filter_append, hk]

theorem values_preflightVary_ne (r : ResponseHeader) (k : Str) (hk : "Vary".toList ≠ k) :
    (preflightVary r).values k = r.values k := by
  unfold preflightVary
  rw [values_Add_ne _ _ _ _ hk, values_Add_ne _ _ _ _ hk, values_Add_ne _ _ _ _ hk]

theorem has_handlePreflight (c : Cors) (ctx : RequestCtx) (k : Str)
    (hopt : ctx.IsOptions = true) (hk : "Vary".toList ≠ k) :
    (c.handlePreflight ctx).Response.Header.has k
      = (ctx.Response.Header.has k
          || (c.preflightGranted ctx
              && (decide ("Access-Control-Allow-Origin".toList = k)
                  || decide ("Access-Control-Allow-Methods".toList = k)
                  || (decide ((parseHeaderList (ctx.Request.Header.Peek
                          "Access-Control-Request-Headers".toList)).length > 0)
                        && decide ("Access-Control-Allow-Headers".toList = k))
                  || (decide (c.allowCredentials = true)
                        && decide ("Access-Control-Allow-Credentials".toList = k))
                  || (decide (c.maxAge > 0) && decide ("Access-Control-Max-Age".toList = k))))) := by
  have hwh : ∀ hd : ResponseHeader, (ctx.withHeader hd).Response.Header = hd := fun _ => rfl
  cases hg : c.preflightGranted ctx
  · rw [handlePreflight_rejected c ctx hopt hg, hwh, has_preflightVary _ _ hk]
    simp only [Bool.false_and, Bool.or_false]
  · rw [handlePreflight_granted c ctx hopt hg, hwh, has_preflightHeaders_eq,
      has_preflightVary _ _ hk]
    simp only [Bool.true_and, Bool.or_assoc]

theorem values_handlePreflight_unchanged (c : Cors) (ctx : RequestCtx) (k : Str)
    (hk : "Vary".toList ≠ k)
    (h : ctx.IsOptions = true → c.preflightGranted ctx = true →
      "Access-Control-Allow-Origin".toList ≠ k
        ∧ "Access-Control-Allow-Methods".toList ≠ k
        ∧ ((parseHeaderList (ctx.Request.Header.Peek
              "Access-Control-Request-Headers".toList)).length > 0 →
            "Access-Control-Allow-Headers".toList ≠ k)
        ∧ (c.allowCredentials = true → "Access-Control-Allow-Credentials".toList ≠ k)
        ∧ (c.maxAge > 0 → "Access-Control-Max-Age".toList ≠ k)) :
    (c.handlePreflight ctx).Response.Header.values k = ctx.Response.Header.values k := by
  have hwh : ∀ hd : ResponseHeader, (ctx.withHeader hd).Response.Header = hd := fun _ => rfl
  cases hopt : ctx.IsOptions
  · rw [handlePreflight_not_options c ctx hopt]
  · cases hg : c.preflightGranted ctx
    · rw [handlePreflight_rejected c ctx hopt hg, hwh, values_preflightVary_ne _ _ hk]
    · obtain ⟨h1, h2, h3, h4, h5⟩ := h hopt hg
      rw [handlePreflight_granted c ctx hopt hg, hwh,
        values_preflightHeaders_of_ne _ _ _ _ _ _ h1 h2 h3 h4 h5,
        values_preflightVary_ne _ _ hk]

theorem has_handleActualRequest (c : Cors) (ctx : RequestCtx) (k : Str)
    (hk : "Vary".toList ≠ k) :
    (c.handleActualRequest ctx).Response.Header.has k
      = (ctx.Response.Header.has k
          || (c.actualGranted ctx
              && (decide ("Access-Control-Allow-Origin".toList = k)
                  || (decide (c.exposedHeaders.length > 0)
                        && decide ("Access-Control-Expose-Headers".toList = k))
                  || (decide (c.allowCredentials = true)
                        && decide ("Access-Control-Allow-Credentials".toList = k))))) := by
  have hwh : ∀ hd : ResponseHeader, (ctx.withHeader hd).Response.Header = hd := fun _ => rfl
  have hv : decide ("Vary".toList = k) = false := decide_eq_false hk
  cases hg : c.actualGranted ctx
  · rw [handleActualRequest_rejected c ctx hg, hwh, has_Add, hv]
    simp only [Bool.false_and, Bool.or_false]
  · rw [handleActualRequest_granted c ctx hg, hwh, has_actualHeaders_eq, has_Add, hv]
    simp only [Bool.true_and, Bool.or_false, Bool.or_assoc]

theorem values_handleActualRequest_unchanged (c : Cors) (ctx : RequestCtx) (k : Str)
    (hk : "Vary".toList ≠ k)
    (h : c.actualGranted ctx = true →
      "Access-Control-Allow-Origin".toList ≠ k
        ∧ (c.exposedHeaders.length > 0 → "Access-Control-Expose-Headers".toList ≠ k)
        ∧ (c.allowCredentials = true → "Access-Control-Allow-Credentials".toList ≠ k)) :
    (c.handleActualRequest ctx).Response.Header.values k = ctx.Response.Header.values k := by
  have hwh : ∀ hd : ResponseHeader, (ctx.withHeader hd).Response.Header = hd := fun _ => rfl
  cases hg : c.actualGranted ctx
  · rw [handleActualRequest_rejected c ctx hg, hwh, values_Add_ne _ _ _ _ hk]
  · obtain ⟨h1, h2, h3⟩ := h hg
    rw [handleActualRequest_granted c ctx hg, hwh,
      values_actualHeaders_of_ne _ _ _ _ h1 h2 h3, values_Add_ne _ _ _ _ hk]

theorem Itoa_of_nonneg (n : Int) (h : 0 ≤ n) : Itoa n = Nat.toDigits 10 n.toNat := by
  obtain ⟨m, rfl⟩ := Int.eq_ofNat_of_zero_le h
  rfl

theorem New_exposedHeaders (o : Options) :
    (New o).exposedHeaders = o.ExposedHeaders.map CanonicalHeaderKey := by
  unfold New
  simp only [newHeadersAll_eq]
  by_cases h : "*".toList ∈ o.AllowedOrigins
  · simp only [newOrigins_star _ _ h]
    split_ifs <;> rfl
  · simp only [newOrigins_nostar _ _ h]
    split_ifs <;> rfl

theorem New_flags (o : Options) :
    (New o).allowCredentials = o.AllowCredentials ∧ (New o).maxAge = o.MaxAge
      ∧ (New o).optionPassthrough = o.OptionsPassthrough := by
  unfold New
  simp only [newHeadersAll_eq]
  by_cases h : "*".toList ∈ o.AllowedOrigins
  · simp only [newOrigins_star _ _ h]
    refine ⟨?_, ?_, ?_⟩ <;> split_ifs <;> rfl
  · simp only [newOrigins_nostar _ _ h]
    refine ⟨?_, ?_, ?_⟩ <;> split_ifs <;> rfl

/-! ## Frame of the decision engine -/

theorem others_Set (r : ResponseHeader) (k v : Str) (hk : k ∈ corsHeaderNames) :
    (r.Set k v).others = r.others := by
  unfold ResponseHeader.others ResponseHeader.Set
  simp only []
  induction r.h with
  | nil => simp [setArg, hk]
  | cons kv rest ih =>
    by_cases h : kv.1 = k
    · have h2 : kv.1 ∈ corsHeaderNames := by rw [h]; exact hk
      simp [setArg, h, h2, hk]
    · simp only [setArg, h, if_false, List.filter_cons, ih]

theorem others_Add (r : ResponseHeader) (k v : Str) (hk : k ∈ corsHeaderNames) :
    (r.Add k v).others = r.others := by
  unfold ResponseHeader.others ResponseHeader.Add
  simp [List.filter_append, hk]

theorem others_ite_Set (b : Prop) [Decidable b] (r : ResponseHeader) (k v : Str)
    (hk : k ∈ corsHeaderNames) : (if b then r.Set k v else r).others = r.others := by
  by_cases hb : b
  · simp only [hb, if_true, others_Set _ _ _ hk]
  · simp only [hb, if_false]

theorem others_preflightVary (r : ResponseHeader) : (preflightVary r).others = r.others := by
  unfold preflightVary
  rw [others_Add _ _ _ (by decide), others_Add _ _ _ (by decide), others_Add _ _ _ (by decide)]

theorem others_preflightHeaders (c : Cors) (origin reqMethod : Str) (reqHeaders : List Str)
    (hd : ResponseHeader) :
    (c.preflightHeaders origin reqMethod reqHeaders hd).others = hd.others := by
  unfold Cors.preflightHeaders
  simp only []
  rw [others_ite_Set _ _ _ _ (by decide), others_ite_Set _ _ _ _ (by decide),
    others_ite_Set _ _ _ _ (by decide), others_Set _ _ _ (by decide)]
  by_cases h : c.allowedOriginsAll = true
  · simp only [h, if_true]
    exact others_Set _ _ _ (by decide)
  · simp only [h, Bool.false_eq_true, if_false]
    exact others_Set _ _ _ (by decide)

theorem others_actualHeaders (c : Cors) (origin : Str) (hd : ResponseHeader) :
    (c.actualHeaders origin hd).others = hd.others := by
  unfold Cors.actualHeaders
  simp only []
  rw [others_ite_Set _ _ _ _ (by decide), others_ite_Set _ _ _ _ (by decide)]
  by_cases h : c.allowedOriginsAll = true
  · simp only [h, if_true]
    exact others_Set _ _ _ (by decide)
  · simp only [h, Bool.false_eq_true, if_false]
    exact others_Set _ _ _ (by decide)

theorem others_handlePreflight (c : Cors) (ctx : RequestCtx) :
    (c.handlePreflight ctx).Response.Header.others = ctx.Response.Header.others := by
  have hwh : ∀ hd : ResponseHeader, (ctx.withHeader hd).Response.Header = hd := fun _ => rfl
  cases hopt : ctx.IsOptions
  · rw [handlePreflight_not_options c ctx hopt]
  · cases hg : c.preflightGranted ctx
    · rw [handlePreflight_rejected c ctx hopt hg, hwh, others_preflightVary]
    · rw [handlePreflight_granted c ctx hopt hg, hwh, others_preflightHeaders,
        others_preflightVary]

theorem others_handleActualRequest (c : Cors) (ctx : RequestCtx) :
    (c.handleActualRequest ctx).Response.Header.others = ctx.Response.Header.others := by
  have hwh : ∀ hd : ResponseHeader, (ctx.withHeader hd).Response.Header = hd := fun _ => rfl
  cases hg : c.actualGranted ctx
  · rw [handleActualRequest_rejected c ctx hg, hwh, others_Add _ _ _ (by decide)]
  · rw [handleActualRequest_granted c ctx hg, hwh, others_actualHeaders,
      others_Add _ _ _ (by decide)]

theorem ne_of_not_mem_names (k k1 : Str) (hk : k ∉ corsHeaderNames)
    (h1 : k1 ∈ corsHeaderNames) : k1 ≠ k := by
  intro e
  rw [e] at h1
  exact hk h1

theorem IsOptions_false_iff (ctx : RequestCtx) :
    ctx.IsOptions = false ↔ ctx.Request.Header.Method ≠ "OPTIONS".toList := by
  unfold RequestCtx.IsOptions
  simp only [decide_eq_false_iff_not, ne_eq]

/-! ## Origin lists of a policy -/

theorem isOriginAllowed_no_predicate (c : Cors) (ctx : RequestCtx) (origin : Str)
    (hf : c.allowOriginFunc = none) (hrf : c.allowOriginRequestFunc = none) :
    c.isOriginAllowed ctx origin
      = (c.allowedOriginsAll || originInList c.allowedOrigins (ToLower origin)
          || originInWildcards c.allowedWOrigins (ToLower origin)) := by
  unfold Cors.isOriginAllowed
  rw [hrf, hf]
  simp only []
  cases c.allowedOriginsAll <;> cases originInList c.allowedOrigins (ToLower origin) <;>
    cases originInWildcards c.allowedWOrigins (ToLower origin) <;> rfl

theorem isOriginAllowed_ctx (c : Cors) (ctx1 ctx2 : RequestCtx) (origin : Str)
    (hrf : c.allowOriginRequestFunc = none) :
    c.isOriginAllowed ctx1 origin = c.isOriginAllowed ctx2 origin := by
  unfold Cors.isOriginAllowed
  rw [hrf]

theorem count_star_ToLower (s : Str) : (ToLower s).count '*' = s.count '*' := by
  unfold ToLower
  induction s with
  | nil => rfl
  | cons b t ih =>
    rw [List.map_cons, List.count_cons, List.count_cons, ih]
    by_cases h : b = '*'
    · subst h; rfl
    · have h2 : ¬ b.toLower = '*' := fun e => h ((toLower_eq_star b).mp e)
      simp [h, h2]

theorem star_not_mem_pfx (s : Str) : '*' ∉ (splitWildcard s).pfx := by
  unfold splitWildcard
  intro h
  have := List.mem_takeWhile_imp h
  simp at this

theorem star_mem_sfx_iff (s : Str) : '*' ∈ (splitWildcard s).sfx ↔ 2 ≤ s.count '*' := by
  unfold splitWildcard
  simp only []
  induction s with
  | nil => simp
  | cons b t ih =>
    by_cases h : b = '*'
    · subst h
      simp only [List.dropWhile, ne_eq, not_true_eq_false, decide_False, List.drop_succ_cons,
        List.drop_zero, List.count_cons_self]
      rw [← List.count_pos_iff]
      omega
    · have h2 : List.dropWhile (fun b => decide (b ≠ '*')) (b :: t)
          = List.dropWhile (fun b => decide (b ≠ '*')) t := by
        simp [List.dropWhile, h]
      rw [h2, List.count_cons_of_ne (fun e => h e.symm)]
      exact ih

theorem New_allowedWOrigins_mem (o : Options) (w : wildcard)
    (hw : w ∈ (New o).allowedWOrigins) :
    ∃ e ∈ o.AllowedOrigins, '*' ∈ e ∧ w = splitWildcard (ToLower e) := by
  by_cases h0 : o.AllowedOrigins = []
  · rw [(New_origins_empty o h0).2.2] at hw
    exact absurd hw (List.not_mem_nil _)
  · by_cases h1 : "*".toList ∈ o.AllowedOrigins
    · rw [(New_origins_star o h1).2.2] at hw
      exact absurd hw (List.not_mem_nil _)
    · rw [(New_origins_nostar o h0 h1).2.2] at hw
      obtain ⟨e, he, rfl⟩ := List.mem_map.mp hw
      have := List.mem_filter.mp he
      exact ⟨e, this.1, by simpa using this.2, rfl⟩

/-! ## Header list parsing -/

theorem splitComma_ne_nil (s : Str) : splitComma s ≠ [] := by
  cases s with
  | nil => simp [splitComma]
  | cons c t =>
    unfold splitComma
    by_cases h : c = ','
    · simp [h]
    · simp only [h, if_false]
      cases splitComma t <;> simp

theorem Join_cons (a : Str) (l : List Str) (sep : Str) (hl : l ≠ []) :
    Join (a :: l) sep = a ++ sep ++ Join l sep := by
  cases l with
  | nil => exact absurd rfl hl
  | cons b rest => rfl

theorem Join_splitComma (s : Str) : Join (splitComma s) ",".toList = s := by
  induction s with
  | nil => rfl
  | cons c t ih =>
    unfold splitComma
    by_cases h : c = ','
    · simp only [h, if_true]
      rw [Join_cons _ _ _ (splitComma_ne_nil t), ih]
      rfl
    · simp only [h, if_false]
      cases hs : splitComma t with
      | nil => exact absurd hs (splitComma_ne_nil t)
      | cons a rest =>
        rw [hs] at ih
        simp only []
        cases rest with
        | nil =>
          simp only [Join] at ih ⊢
          rw [ih]
        | cons b rest2 =>
          simp only [Join] at ih ⊢
          rw [← ih]
          simp

theorem splitComma_no_comma (s : Str) : ∀ t ∈ splitComma s, ',' ∉ t := by
  induction s with
  | nil => simp [splitComma]
  | cons c r ih =>
    unfold splitComma
    by_cases h : c = ','
    · simp only [h, if_true]
      intro t ht
      rcases List.mem_cons.mp ht with e | e
      · rw [e]; exact List.not_mem_nil _
      · exact ih t e
    · simp only [h, if_false]
      cases hs : splitComma r with
      | nil => exact absurd hs (splitComma_ne_nil r)
      | cons a rest =>
        rw [hs] at ih
        intro t ht
        rcases List.mem_cons.mp ht with e | e
        · rw [e]
          intro hm
          rcases List.mem_cons.mp hm with e2 | e2
          · exact h e2.symm
          · exact ih a (List.mem_cons_self _ _) e2
        · exact ih t (List.mem_cons_of_mem _ e)

theorem splitComma_mem (s : Str) : ∀ t ∈ splitComma s, ∀ c ∈ t, c ∈ s := by
  induction s with
  | nil => simp [splitComma]
  | cons c r ih =>
    unfold splitComma
    by_cases h : c = ','
    · simp only [h, if_true]
      intro t ht x hx
      rcases List.mem_cons.mp ht with e | e
      · rw [e] at hx; exact absurd hx (List.not_mem_nil _)
      · exact List.mem_cons_of_mem _ (ih t e x hx)
    · simp only [h, if_false]
      cases hs : splitComma r with
      | nil => exact absurd hs (splitComma_ne_nil r)
      | cons a rest =>
        rw [hs] at ih
        intro t ht x hx
        rcases List.mem_cons.mp ht with e | e
        · rw [e] at hx
          rcases List.mem_cons.mp hx with e2 | e2
          · rw [e2]; exact List.mem_cons_self _ _
          · exact List.mem_cons_of_mem _ (ih a (List.mem_cons_self _ _) x e2)
        · exact List.mem_cons_of_mem _ (ih t (List.mem_cons_of_mem _ e) x hx)

theorem trimSpace_decompose (t : Str) :
    ∃ a b : Str, t = a ++ trimSpace t ++ b
      ∧ (∀ c ∈ a, c.isWhitespace = true) ∧ (∀ c ∈ b, c.isWhitespace = true) := by
  refine ⟨t.takeWhile Char.isWhitespace,
    (((t.dropWhile Char.isWhitespace).reverse).takeWhile Char.isWhitespace).reverse, ?_, ?_, ?_⟩
  · unfold trimSpace
    rw [List.append_assoc, ← List.reverse_append, List.takeWhile_append_dropWhile,
      List.reverse_reverse, List.takeWhile_append_dropWhile]
  · intro c hc
    exact List.mem_takeWhile_imp hc
  · intro c hc
    exact List.mem_takeWhile_imp (List.mem_reverse.mp hc)

theorem trimSpace_ends (t : Str) :
    (∀ c, (trimSpace t).head? = some c → c.isWhitespace = false)
      ∧ (∀ c, (trimSpace t).getLast? = some c → c.isWhitespace = false) := by
  unfold trimSpace
  constructor
  · intro c hc
    -- the trimmed text is a prefix of the text without its leading whitespace
    have hd := List.head?_dropWhile_not Char.isWhitespace t
    have hp : (((t.dropWhile Char.isWhitespace).reverse).dropWhile Char.isWhitespace).reverse
        <+: t.dropWhile Char.isWhitespace := by
      refine ⟨(((t.dropWhile Char.isWhitespace).reverse).takeWhile
        Char.isWhitespace).reverse, ?_⟩
      rw [← List.reverse_append, List.takeWhile_append_dropWhile, List.reverse_reverse]
    obtain ⟨b, hb⟩ := hp
    rw [← hb] at hd
    cases hx : (((t.dropWhile Char.isWhitespace).reverse).dropWhile
        Char.isWhitespace).reverse with
    | nil => rw [hx] at hc; exact absurd hc (by simp)
    | cons x rest =>
      rw [hx] at hc hd
      simp only [List.head?_cons, Option.some.injEq] at hc
      simp only [List.cons_append, List.head?_cons] at hd
      rw [← hc]
      simpa using hd
  · intro c hc
    rw [List.getLast?_reverse] at hc
    have hd := List.head?_dropWhile_not Char.isWhitespace
      (t.dropWhile Char.isWhitespace).reverse
    rw [hc] at hd
    simpa using hd

theorem trimSpace_whitespace (t : Str) (h : ∀ c ∈ t, c.isWhitespace = true) :
    trimSpace t = [] := by
  unfold trimSpace
  rw [List.dropWhile_eq_nil_iff.mpr h]
  rfl

theorem parseHeaderList_separators (raw : Str)
    (h : ∀ c ∈ raw, c.isWhitespace = true ∨ c = ',') : parseHeaderList raw = [] := by
  unfold parseHeaderList
  have key : ∀ t ∈ (splitComma raw).map trimSpace, t = [] := by
    intro t ht
    obtain ⟨u, hu, rfl⟩ := List.mem_map.mp ht
    apply trimSpace_whitespace
    intro c hc
    rcases h c (splitComma_mem raw u hu c hc) with e | e
    · exact e
    · rw [e] at hc
      exact absurd hc (splitComma_no_comma raw u hu)
  have : ((splitComma raw).map trimSpace).filter (fun t => decide (t.length ≠ 0)) = [] := by
    rw [List.filter_eq_nil_iff]
    intro t ht
    rw [key t ht]
    decide
  rw [this]
  rfl

/-! ## Claims -/

/-- C1: on an OPTIONS request `handlePreflight` appends the three `Vary` values `Origin`,
`Access-Control-Request-Method`, `Access-Control-Request-Headers`, in that order, after the
`Vary` values already there, whatever the outcome. When the four checks pass (non-empty
`Origin`, origin allowed, requested method allowed, parsed requested headers allowed) the
response carries `Access-Control-Allow-Origin` and `Access-Control-Allow-Methods`; when any
check fails the result is the incoming context with the three `Vary` values appended and
nothing else changed. So on a response that did not carry them before, each of the two
headers is present afterwards if and only if the four checks pass. -/
theorem handlePreflight_contract (c : Cors) (ctx : RequestCtx) (hopt : ctx.IsOptions = true) :
    (c.handlePreflight ctx).Response.Header.values "Vary".toList
        = ctx.Response.Header.values "Vary".toList
            ++ ["Origin".toList, "Access-Control-Request-Method".toList,
                "Access-Control-Request-Headers".toList]
      ∧ (c.preflightGranted ctx = true →
          (c.handlePreflight ctx).Response.Header.has "Access-Control-Allow-Origin".toList = true
            ∧ (c.handlePreflight ctx).Response.Header.has
                "Access-Control-Allow-Methods".toList = true)
      ∧ (c.preflightGranted ctx = false →
          c.handlePreflight ctx = ctx.withHeader (preflightVary ctx.Response.Header))
      ∧ (ctx.Response.Header.has "Access-Control-Allow-Origin".toList = false →
          ((c.handlePreflight ctx).Response.Header.has "Access-Control-Allow-Origin".toList
              = true ↔ c.preflightGranted ctx = true))
      ∧ (ctx.Response.Header.has "Access-Control-Allow-Methods".toList = false →
          ((c.handlePreflight ctx).Response.Header.has "Access-Control-Allow-Methods".toList
              = true ↔ c.preflightGranted ctx = true)) := by
  have hwh : ∀ hd : ResponseHeader, (ctx.withHeader hd).Response.Header = hd := fun _ => rfl
  cases hg : c.preflightGranted ctx
  · rw [handlePreflight_rejected c ctx hopt hg]
    simp only [hwh]
    refine ⟨values_preflightVary _, ?_, ?_, ?_, ?_⟩
    · intro h; exact Bool.noConfusion h
    · intro _; trivial
    · intro h0
      rw [has_preflightVary _ _ (by decide), h0]
    · intro h0
      rw [has_preflightVary _ _ (by decide), h0]
  · rw [handlePreflight_granted c ctx hopt hg]
    simp only [hwh]
    refine ⟨?_, ?_, ?_, ?_, ?_⟩
    · rw [values_preflightHeaders, values_preflightVary]
    · intro _; exact has_preflightHeaders _ _ _ _ _
    · intro h; exact Bool.noConfusion h
    · intro _; simp only [(has_preflightHeaders _ _ _ _ _).1]
    · intro _; simp only [(has_preflightHeaders _ _ _ _ _).2]

/-- The preflight of the end-to-end test `DisallowedMethod`: method `PATCH` requested from a
policy that allows `PUT` and `DELETE`. -/
theorem handlePreflight_contract_witness :
    (mkCtx "OPTIONS" [("Origin", "http://foobar.com"),
        ("Access-Control-Request-Method", "PATCH")]).IsOptions = true
      ∧ ((New { AllowedOrigins := ["http://foobar.com".toList],
                AllowedMethods := ["PUT".toList, "DELETE".toList] }).handlePreflight
          (mkCtx "OPTIONS" [("Origin", "http://foobar.com"),
            ("Access-Control-Request-Method", "PATCH")])).Response.Header.h
          = [("Vary".toList, "Origin".toList),
             ("Vary".toList, "Access-Control-Request-Method".toList),
             ("Vary".toList, "Access-Control-Request-Headers".toList)] :=
  ⟨by decide,
   congrArg (fun x => x.Response.Header.h)
     ((handlePreflight_contract
        (New { AllowedOrigins := ["http://foobar.com".toList],
               AllowedMethods := ["PUT".toList, "DELETE".toList] })
        (mkCtx "OPTIONS" [("Origin", "http://foobar.com"),
          ("Access-Control-Request-Method", "PATCH")]) (by decide)).2.2.1 (by decide))⟩

/-- C2: `handleActualRequest` appends exactly one `Vary` value, `Origin`, after the `Vary`
values already there, whatever the outcome. When the three checks pass (non-empty `Origin`,
origin allowed, the request's own method allowed) the response carries
`Access-Control-Allow-Origin`; when any check fails the result is the incoming context with
`Vary: Origin` appended and nothing else changed. So on a response that did not carry it
before, `Access-Control-Allow-Origin` is present afterwards if and only if the three checks
pass. -/
theorem handleActualRequest_contract (c : Cors) (ctx : RequestCtx) :
    (c.handleActualRequest ctx).Response.Header.values "Vary".toList
        = ctx.Response.Header.values "Vary".toList ++ ["Origin".toList]
      ∧ (c.actualGranted ctx = true →
          (c.handleActualRequest ctx).Response.Header.has "Access-Control-Allow-Origin".toList
            = true)
      ∧ (c.actualGranted ctx = false →
          c.handleActualRequest ctx
            = ctx.withHeader (ctx.Response.Header.Add "Vary".toList "Origin".toList))
      ∧ (ctx.Response.Header.has "Access-Control-Allow-Origin".toList = false →
          ((c.handleActualRequest ctx).Response.Header.has "Access-Control-Allow-Origin".toList
              = true ↔ c.actualGranted ctx = true)) := by
  have hwh : ∀ hd : ResponseHeader, (ctx.withHeader hd).Response.Header = hd := fun _ => rfl
  cases hg : c.actualGranted ctx
  · rw [handleActualRequest_rejected c ctx hg]
    simp only [hwh]
    refine ⟨values_Add_same _ _ _, ?_, ?_, ?_⟩
    · intro h; exact Bool.noConfusion h
    · intro _; trivial
    · intro h0
      rw [has_Add, h0]
      decide
  · rw [handleActualRequest_granted c ctx hg]
    simp only [hwh]
    refine ⟨?_, ?_, ?_, ?_⟩
    · rw [values_actualHeaders, values_Add_same]
    · intro _; exact has_actualHeaders _ _ _
    · intro h; exact Bool.noConfusion h
    · intro _; simp only [has_actualHeaders]

/-- The request of the test `TestHandleActualRequestInvalidMethodAbortion`: a `GET` from a
policy that allows only `POST`, with credentials enabled. -/
theorem handleActualRequest_contract_witness :
    (New { AllowedMethods := ["POST".toList], AllowCredentials := true }).actualGranted
        (mkCtx "GET" [("Origin", "http://example.com/")]) = false
      ∧ ((New { AllowedMethods := ["POST".toList], AllowCredentials := true }).handleActualRequest
          (mkCtx "GET" [("Origin", "http://example.com/")])).Response.Header.h
          = [("Vary".toList, "Origin".toList)] :=
  ⟨by decide,
   congrArg (fun x => x.Response.Header.h)
     ((handleActualRequest_contract
        (New { AllowedMethods := ["POST".toList], AllowCredentials := true })
        (mkCtx "GET" [("Origin", "http://example.com/")])).2.2.1 (by decide))⟩

/-- C3: for options with no predicate and a non-empty `AllowedOrigins` without a `*`
entry, the policy `New` builds allows an origin exactly when the lower-cased origin equals
the lower-cased form of a configured entry that has no `*`, or is matched by the wildcard
pattern got by splitting the lower-cased form of a configured entry that has a `*` at its
first `*`. -/
theorem New_isOriginAllowed_iff (o : Options) (ctx : RequestCtx) (origin : Str)
    (hf : o.AllowOriginFunc = none) (hrf : o.AllowOriginRequestFunc = none)
    (hne : o.AllowedOrigins ≠ []) (hstar : "*".toList ∉ o.AllowedOrigins) :
    (New o).isOriginAllowed ctx origin = true
      ↔ (∃ e ∈ o.AllowedOrigins, '*' ∉ e ∧ ToLower origin = ToLower e)
          ∨ (∃ e ∈ o.AllowedOrigins,
              '*' ∈ e ∧ (splitWildcard (ToLower e)).matches (ToLower origin) = true) := by
  obtain ⟨ha, hl, hw⟩ := New_origins_nostar o hne hstar
  unfold Cors.isOriginAllowed
  rw [(New_funcs o).1, (New_funcs o).2, hf, hrf, ha, hl, hw]
  simp only [Bool.false_eq_true, if_false]
  have e1 : originInList ((o.AllowedOrigins.filter (fun e => '*' ∉ e)).map ToLower)
      (ToLower origin) = true
      ↔ ∃ e ∈ o.AllowedOrigins, '*' ∉ e ∧ ToLower origin = ToLower e := by
    rw [originInList_iff, List.mem_map]
    constructor
    · rintro ⟨e, he, h⟩
      have := List.mem_filter.mp he
      exact ⟨e, this.1, by simpa using this.2, h.symm⟩
    · rintro ⟨e, he, hs, h⟩
      exact ⟨e, List.mem_filter.mpr ⟨he, by simpa using hs⟩, h.symm⟩
  have e2 : originInWildcards
      ((o.AllowedOrigins.filter (fun e => '*' ∈ e)).map (fun e => splitWildcard (ToLower e)))
      (ToLower origin) = true
      ↔ ∃ e ∈ o.AllowedOrigins,
          '*' ∈ e ∧ (splitWildcard (ToLower e)).matches (ToLower origin) = true := by
    rw [originInWildcards_iff]
    constructor
    · rintro ⟨w, hw1, h⟩
      obtain ⟨e, he, rfl⟩ := List.mem_map.mp hw1
      have := List.mem_filter.mp he
      exact ⟨e, this.1, by simpa using this.2, h⟩
    · rintro ⟨e, he, hs, h⟩
      exact ⟨_, List.mem_map.mpr ⟨e, List.mem_filter.mpr ⟨he, by simpa using hs⟩, rfl⟩, h⟩
  by_cases b1 : originInList ((o.AllowedOrigins.filter (fun e => '*' ∉ e)).map ToLower)
      (ToLower origin) = true
  · simp only [b1, if_true, true_iff]
    exact Or.inl (e1.mp b1)
  · by_cases b2 : originInWildcards
        ((o.AllowedOrigins.filter (fun e => '*' ∈ e)).map (fun e => splitWildcard (ToLower e)))
        (ToLower origin) = true
    · simp only [b1, b2, if_true, if_false, Bool.false_eq_true, true_iff]
      exact Or.inr (e2.mp b2)
    · simp only [b1, b2, if_false, Bool.false_eq_true, false_iff]
      rintro (h | h)
      · exact b1 (e1.mpr h)
      · exact b2 (e2.mpr h)

/-- An upper-case request origin is admitted by a mixed-case literal entry, and a mixed-case
origin by a wildcard entry. -/
theorem New_isOriginAllowed_iff_witness :
    (["http://*.Bar.com".toList, "HTTP://Foo.com".toList] ≠ []
        ∧ "*".toList ∉ ["http://*.Bar.com".toList, "HTTP://Foo.com".toList])
      ∧ ((New { AllowedOrigins :=
                  ["http://*.Bar.com".toList, "HTTP://Foo.com".toList] }).isOriginAllowed
            (mkCtx "GET" []) "http://FOO.COM".toList = true
          ↔ (∃ e ∈ ["http://*.Bar.com".toList, "HTTP://Foo.com".toList],
                '*' ∉ e ∧ ToLower "http://FOO.COM".toList = ToLower e)
              ∨ (∃ e ∈ ["http://*.Bar.com".toList, "HTTP://Foo.com".toList],
                  '*' ∈ e
                    ∧ (splitWildcard (ToLower e)).matches (ToLower "http://FOO.COM".toList)
                        = true))
      ∧ (New { AllowedOrigins :=
                ["http://*.Bar.com".toList, "HTTP://Foo.com".toList] }).isOriginAllowed
          (mkCtx "GET" []) "http://FOO.COM".toList = true
      ∧ (New { AllowedOrigins :=
                ["http://*.Bar.com".toList, "HTTP://Foo.com".toList] }).isOriginAllowed
          (mkCtx "GET" []) "http://x.BAR.com".toList = true :=
  ⟨⟨by decide, by decide⟩,
   New_isOriginAllowed_iff
      { AllowedOrigins := ["http://*.Bar.com".toList, "HTTP://Foo.com".toList] }
      (mkCtx "GET" []) "http://FOO.COM".toList rfl rfl (by decide) (by decide),
   by decide, by decide⟩

/-- C4: the wildcard matcher is true exactly when the candidate starts with the prefix, ends
with the suffix and is at least as long as both together; equivalently, exactly when the
candidate is the prefix, then any (possibly empty) text, then the suffix. Prefix and suffix
never overlap: the pattern `foo*oof` does not match `foof`. -/
theorem wildcard_matches_iff (w : wildcard) (s : Str) :
    (w.matches s = true
        ↔ w.pfx <+: s ∧ w.sfx <:+ s ∧ s.length ≥ w.pfx.length + w.sfx.length)
      ∧ (w.matches s = true ↔ ∃ m : Str, s = w.pfx ++ m ++ w.sfx)
      ∧ (wildcard.mk "foo".toList "oof".toList).matches "foof".toList = false := by
  have h1 : w.matches s = true
      ↔ w.pfx <+: s ∧ w.sfx <:+ s ∧ s.length ≥ w.pfx.length + w.sfx.length := by
    unfold wildcard.matches
    simp only [Bool.and_eq_true, List.isPrefixOf_iff_prefix, List.isSuffixOf_iff_suffix,
      decide_eq_true_eq, and_assoc]
  refine ⟨h1, ?_, by decide⟩
  rw [h1]
  constructor
  · rintro ⟨⟨t, ht⟩, hs, hl⟩
    have hlen : s.length = w.pfx.length + t.length := by rw [← ht, List.length_append]
    have hts : t <:+ s := ⟨w.pfx, ht⟩
    have hst : w.sfx <:+ t := List.suffix_of_suffix_length_le hs hts (by omega)
    obtain ⟨m, hm⟩ := hst
    exact ⟨m, by rw [← ht, ← hm, List.append_assoc]⟩
  · rintro ⟨m, hm⟩
    refine ⟨⟨m ++ w.sfx, by rw [hm, List.append_assoc]⟩, ⟨w.pfx ++ m, hm.symm⟩, ?_⟩
    rw [hm]
    simp only [List.length_append]
    omega

/-- C5: a configured `AllowOriginRequestFunc` decides the origin alone, whatever
`AllowOriginFunc` and the origin lists contain; without it a configured `AllowOriginFunc`
decides alone, whatever the origin lists contain. This holds for every policy record and for
every policy `New` builds from options carrying these functions. -/
theorem isOriginAllowed_predicates (c : Cors) (o : Options) (f : RequestCtx → Str → Bool)
    (g : Str → Bool) (ctx : RequestCtx) (origin : Str) :
    ({ c with allowOriginRequestFunc := some f } : Cors).isOriginAllowed ctx origin
        = f ctx origin
      ∧ ({ c with allowOriginRequestFunc := none, allowOriginFunc := some g } :
            Cors).isOriginAllowed ctx origin = g origin
      ∧ (New { o with AllowOriginRequestFunc := some f }).isOriginAllowed ctx origin
          = f ctx origin
      ∧ (New { o with AllowOriginRequestFunc := none, AllowOriginFunc := some g }).isOriginAllowed
            ctx origin = g origin := by
  refine ⟨rfl, rfl, ?_, ?_⟩
  · unfold Cors.isOriginAllowed
    rw [(New_funcs _).2]
  · unfold Cors.isOriginAllowed
    rw [(New_funcs _).2, (New_funcs _).1]

/-- C6: whenever the request is granted, so that `Access-Control-Allow-Origin` is set, on
the preflight path or on the actual-request path, the value stored is `*` if the policy
allows all origins and otherwise the request's `Origin` value exactly as received. -/
theorem allowOrigin_value (c : Cors) (ctx : RequestCtx) :
    (ctx.IsOptions = true → c.preflightGranted ctx = true →
        (c.handlePreflight ctx).Response.Header.Peek "Access-Control-Allow-Origin".toList
          = if c.allowedOriginsAll then "*".toList
            else ctx.Request.Header.Peek "Origin".toList)
      ∧ (c.actualGranted ctx = true →
        (c.handleActualRequest ctx).Response.Header.Peek "Access-Control-Allow-Origin".toList
          = if c.allowedOriginsAll then "*".toList
            else ctx.Request.Header.Peek "Origin".toList) := by
  have hwh : ∀ hd : ResponseHeader, (ctx.withHeader hd).Response.Header = hd := fun _ => rfl
  constructor
  · intro hopt hg
    rw [handlePreflight_granted c ctx hopt hg, hwh, Peek_preflightHeaders]
  · intro hg
    rw [handleActualRequest_granted c ctx hg, hwh, Peek_actualHeaders]

/-- A mixed-case origin matched by a wildcard entry is echoed with its own casing, on both
paths. -/
theorem allowOrigin_value_witness :
    ((New { AllowedOrigins := ["http://*.bar.com".toList] }).handlePreflight
        (mkCtx "OPTIONS" [("Origin", "http://Foo.BAR.com"),
          ("Access-Control-Request-Method", "GET")])).Response.Header.Peek
        "Access-Control-Allow-Origin".toList = "http://Foo.BAR.com".toList
      ∧ ((New { AllowedOrigins := ["http://*.bar.com".toList] }).handleActualRequest
        (mkCtx "GET" [("Origin", "http://Foo.BAR.com")])).Response.Header.Peek
        "Access-Control-Allow-Origin".toList = "http://Foo.BAR.com".toList :=
  ⟨(allowOrigin_value (New { AllowedOrigins := ["http://*.bar.com".toList] })
      (mkCtx "OPTIONS" [("Origin", "http://Foo.BAR.com"),
        ("Access-Control-Request-Method", "GET")])).1 (by decide) (by decide),
   (allowOrigin_value (New { AllowedOrigins := ["http://*.bar.com".toList] })
      (mkCtx "GET" [("Origin", "http://Foo.BAR.com")])).2 (by decide)⟩

/-- C7: `New` marks the policy as allowing all origins exactly when `AllowedOrigins` is
empty with no predicate configured, or some entry of `AllowedOrigins` is `*`. When a `*`
entry is present the literal list and the wildcard list are both empty and the policy is
the very policy built from `AllowedOrigins = ["*"]`, whatever comes before or after the
`*`; with no predicate it is also the policy built from the empty list. -/
theorem New_allowedOriginsAll (o : Options) :
    ((New o).allowedOriginsAll = true
        ↔ (o.AllowedOrigins = [] ∧ o.AllowOriginFunc = none ∧ o.AllowOriginRequestFunc = none)
            ∨ "*".toList ∈ o.AllowedOrigins)
      ∧ ("*".toList ∈ o.AllowedOrigins →
          (New o).allowedOrigins = [] ∧ (New o).allowedWOrigins = []
            ∧ New o = New { o with AllowedOrigins := ["*".toList] }
            ∧ (o.AllowOriginFunc = none → o.AllowOriginRequestFunc = none →
                New o = New { o with AllowedOrigins := [] })) := by
  constructor
  · by_cases h0 : o.AllowedOrigins = []
    · rw [(New_origins_empty o h0).1, h0]
      cases o.AllowOriginFunc <;> cases o.AllowOriginRequestFunc <;> simp
    · by_cases h1 : "*".toList ∈ o.AllowedOrigins
      · rw [(New_origins_star o h1).1]
        exact ⟨fun _ => Or.inr h1, fun _ => rfl⟩
      · rw [(New_origins_nostar o h0 h1).1]
        constructor
        · intro h; exact absurd h (by decide)
        · rintro (⟨h, _⟩ | h)
          · exact absurd h h0
          · exact absurd h h1
  · intro h
    have hne : ¬ o.AllowedOrigins.length = 0 := by
      intro e
      rw [List.length_eq_zero.mp e] at h
      exact absurd h (List.not_mem_nil _)
    have hs : "*".toList ∈ ["*".toList] := List.mem_singleton.mpr rfl
    refine ⟨(New_origins_star o h).2.1, (New_origins_star o h).2.2, ?_, ?_⟩
    · unfold New
      simp only [hne, if_false, newOrigins_star _ _ h, newOrigins_star _ _ hs,
        List.length_singleton, one_ne_zero]
    · intro hf hrf
      unfold New
      simp only [hne, if_false, newOrigins_star _ _ h, List.length_nil, if_true, hf, hrf,
        Option.isNone_none, Bool.and_self]

/-- A `*` in the middle of the list, between a literal and a wildcard entry. -/
theorem New_allowedOriginsAll_witness :
    "*".toList ∈ ["http://a.com".toList, "*".toList, "http://*.b.com".toList]
      ∧ (New { AllowedOrigins :=
                ["http://a.com".toList, "*".toList, "http://*.b.com".toList] }).allowedOrigins
          = []
      ∧ (New { AllowedOrigins :=
                ["http://a.com".toList, "*".toList, "http://*.b.com".toList] }).allowedWOrigins
          = [] :=
  ⟨by decide,
   ((New_allowedOriginsAll
      { AllowedOrigins := ["http://a.com".toList, "*".toList, "http://*.b.com".toList] }).2
      (by decide)).1,
   ((New_allowedOriginsAll
      { AllowedOrigins := ["http://a.com".toList, "*".toList, "http://*.b.com".toList] }).2
      (by decide)).2.1⟩

/-- C8: with an empty allow-list `isMethodAllowed` is false for every method, `OPTIONS`
and the nil method included; with a non-empty allow-list it is true exactly when the
upper-cased method is `OPTIONS` or an element of the allow-list. -/
theorem isMethodAllowed_contract (c : Cors) (m : Str) :
    (c.allowedMethods = [] → c.isMethodAllowed m = false)
      ∧ (c.allowedMethods ≠ [] →
          (c.isMethodAllowed m = true
            ↔ ToUpper m = "OPTIONS".toList ∨ ToUpper m ∈ c.allowedMethods)) := by
  constructor
  · intro h
    cases hm : c.isMethodAllowed m
    · rfl
    · exact absurd h ((isMethodAllowed_true_iff c m).mp hm).1
  · intro h
    rw [isMethodAllowed_true_iff]
    exact ⟨fun x => x.2, fun x => ⟨h, x⟩⟩

/-- The two unit tests of `isMethodAllowed`: the default policy with its method list
emptied rejects the nil method (and `OPTIONS`), the default policy allows `OPTIONS`. -/
theorem isMethodAllowed_contract_witness :
    ({ Default with allowedMethods := [] } : Cors).isMethodAllowed [] = false
      ∧ ({ Default with allowedMethods := [] } : Cors).isMethodAllowed "OPTIONS".toList = false
      ∧ Default.isMethodAllowed "OPTIONS".toList = true :=
  ⟨(isMethodAllowed_contract { Default with allowedMethods := [] } []).1 rfl,
   (isMethodAllowed_contract { Default with allowedMethods := [] } "OPTIONS".toList).1 rfl,
   ((isMethodAllowed_contract Default "OPTIONS".toList).2 (by decide)).mpr (Or.inl (by decide))⟩

/-- C9: for every options record and every method, the policy `New` builds allows the
method exactly when its upper-cased form is `OPTIONS` or equals the upper-cased form of a
configured `AllowedMethods` entry, an empty `AllowedMethods` standing for `GET`, `POST`,
`HEAD`. -/
theorem New_isMethodAllowed_iff (o : Options) (m : Str) :
    (New o).isMethodAllowed m = true
      ↔ ToUpper m = "OPTIONS".toList
          ∨ ∃ e ∈ (if o.AllowedMethods = [] then ["GET".toList, "POST".toList, "HEAD".toList]
                    else o.AllowedMethods), ToUpper m = ToUpper e := by
  rw [isMethodAllowed_true_iff, New_methods]
  by_cases h : o.AllowedMethods = []
  · simp only [h, List.length_nil, if_true]
    constructor
    · rintro ⟨_, h1 | h1⟩
      · exact Or.inl h1
      · right
        simp only [List.mem_cons, List.mem_singleton, List.not_mem_nil, or_false] at h1
        rcases h1 with h1 | h1 | h1
        · exact ⟨"GET".toList, by simp, by rw [h1]; rfl⟩
        · exact ⟨"POST".toList, by simp, by rw [h1]; rfl⟩
        · exact ⟨"HEAD".toList, by simp, by rw [h1]; rfl⟩
    · rintro (h1 | ⟨e, he, h1⟩)
      · exact ⟨by simp, Or.inl h1⟩
      · refine ⟨by simp, Or.inr ?_⟩
        simp only [List.mem_cons, List.mem_singleton, List.not_mem_nil, or_false] at he
        rcases he with he | he | he <;> subst he <;> rw [h1] <;> decide
  · have h2 : ¬ o.AllowedMethods.length = 0 := fun e => h (List.length_eq_zero.mp e)
    have h3 : convert o.AllowedMethods ToUpper ≠ [] := by
      unfold convert
      intro e
      exact h (List.map_eq_nil_iff.mp e)
    simp only [h, h2, if_false]
    constructor
    · rintro ⟨_, h1 | h1⟩
      · exact Or.inl h1
      · right
        unfold convert at h1
        obtain ⟨e, he, h4⟩ := List.mem_map.mp h1
        exact ⟨e, he, h4.symm⟩
    · rintro (h1 | ⟨e, he, h1⟩)
      · exact ⟨h3, Or.inl h1⟩
      · refine ⟨h3, Or.inr ?_⟩
        unfold convert
        exact List.mem_map.mpr ⟨e, he, h1.symm⟩

/-- C10: `areHeadersAllowed` is true exactly when the policy allows all headers or every
requested header, once canonicalized, is an element of the allowed-header list; the empty
request list is admissible, and a single requested header outside the list rejects the
whole request list. -/
theorem areHeadersAllowed_contract (c : Cors) (requestedHeaders : List Str) :
    (c.areHeadersAllowed requestedHeaders = true
        ↔ c.allowedHeadersAll = true
            ∨ ∀ h ∈ requestedHeaders, CanonicalHeaderKey h ∈ c.allowedHeaders)
      ∧ c.areHeadersAllowed [] = true
      ∧ (c.allowedHeadersAll = false →
          ∀ h ∈ requestedHeaders, CanonicalHeaderKey h ∉ c.allowedHeaders →
            c.areHeadersAllowed requestedHeaders = false) := by
  refine ⟨areHeadersAllowed_true_iff c requestedHeaders, ?_, ?_⟩
  · rw [areHeadersAllowed_true_iff]
    exact Or.inr (fun h hh => absurd hh (List.not_mem_nil h))
  · intro hall h hh hn
    cases hr : c.areHeadersAllowed requestedHeaders
    · rfl
    · rcases (areHeadersAllowed_true_iff c requestedHeaders).mp hr with h1 | h1
      · rw [hall] at h1; exact absurd h1 (by decide)
      · exact absurd (h1 h hh) hn

/-- The preflight of the end-to-end test `DisallowedHeader`: one listed and one unlisted
header are requested, and the whole list is rejected. -/
theorem areHeadersAllowed_contract_witness :
    (New { AllowedHeaders := ["X-Header-1".toList, "x-header-2".toList] }).areHeadersAllowed
        (parseHeaderList "X-Header-3, X-Header-1".toList) = false :=
  (areHeadersAllowed_contract
      (New { AllowedHeaders := ["X-Header-1".toList, "x-header-2".toList] })
      (parseHeaderList "X-Header-3, X-Header-1".toList)).2.2 (by decide)
    "X-Header-3".toList (by decide) (by decide)

/-- C11: if some `AllowedHeaders` entry is `*`, `New` sets the allow-all-headers flag and every
requested header list is admissible; else if `AllowedHeaders` is empty the allowed-header
list is exactly `Origin`, `Accept`, `Content-Type`, `X-Requested-With`; else it is the
canonicalized configured entries followed by `Origin`. So under every policy `New` builds
the header `Origin`, written in any letter case, is admissible. -/
theorem New_allowedHeaders (o : Options) :
    ("*".toList ∈ o.AllowedHeaders →
        (New o).allowedHeadersAll = true
          ∧ ∀ requestedHeaders : List Str, (New o).areHeadersAllowed requestedHeaders = true)
      ∧ ("*".toList ∉ o.AllowedHeaders → o.AllowedHeaders = [] →
          (New o).allowedHeadersAll = false
            ∧ (New o).allowedHeaders
                = ["Origin".toList, "Accept".toList, "Content-Type".toList,
                    "X-Requested-With".toList])
      ∧ ("*".toList ∉ o.AllowedHeaders → o.AllowedHeaders ≠ [] →
          (New o).allowedHeadersAll = false
            ∧ (New o).allowedHeaders
                = o.AllowedHeaders.map CanonicalHeaderKey ++ ["Origin".toList])
      ∧ (∀ s : Str, ToLower s = "origin".toList → (New o).areHeadersAllowed [s] = true) := by
  obtain ⟨hall, hlist⟩ := New_headers o
  have hstar : "*".toList ∈ o.AllowedHeaders →
      (New o).allowedHeadersAll = true
        ∧ ∀ requestedHeaders : List Str, (New o).areHeadersAllowed requestedHeaders = true := by
    intro h
    have h1 : (New o).allowedHeadersAll = true := by rw [hall]; exact decide_eq_true h
    exact ⟨h1, fun r => (areHeadersAllowed_true_iff _ r).mpr (Or.inl h1)⟩
  have hempty : "*".toList ∉ o.AllowedHeaders → o.AllowedHeaders = [] →
      (New o).allowedHeadersAll = false
        ∧ (New o).allowedHeaders
            = ["Origin".toList, "Accept".toList, "Content-Type".toList,
                "X-Requested-With".toList] := by
    intro h h0
    refine ⟨by rw [hall]; exact decide_eq_false h, ?_⟩
    rw [hlist, h0]
    rfl
  have hsome : "*".toList ∉ o.AllowedHeaders → o.AllowedHeaders ≠ [] →
      (New o).allowedHeadersAll = false
        ∧ (New o).allowedHeaders
            = o.AllowedHeaders.map CanonicalHeaderKey ++ ["Origin".toList] := by
    intro h h0
    have h1 : ¬ o.AllowedHeaders.length = 0 := fun e => h0 (List.length_eq_zero.mp e)
    refine ⟨by rw [hall]; exact decide_eq_false h, ?_⟩
    rw [hlist]
    simp only [h1, h, if_false]
    unfold convert
    rw [List.map_append]
    rfl
  refine ⟨hstar, hempty, hsome, ?_⟩
  intro s hs
  rw [areHeadersAllowed_true_iff]
  by_cases h : "*".toList ∈ o.AllowedHeaders
  · exact Or.inl (hstar h).1
  · right
    intro x hx
    rw [List.mem_singleton.mp hx, CanonicalHeaderKey_origin s hs]
    by_cases h0 : o.AllowedHeaders = []
    · rw [(hempty h h0).2]
      exact List.mem_cons_self _ _
    · rw [(hsome h h0).2]
      exact List.mem_append_right _ (List.mem_singleton.mpr rfl)

/-- The policies of the end-to-end tests `OriginHeader`, `DefaultAllowedHeaders` and
`AllowedHeaders`: `origin` in lower case is admitted, the default list is the four fixed
names, and a configured list is canonicalized with `Origin` appended. -/
theorem New_allowedHeaders_witness :
    (New { AllowedOrigins := ["http://foobar.com".toList] }).areHeadersAllowed
        ["origin".toList] = true
      ∧ (New { AllowedOrigins := ["http://foobar.com".toList],
               AllowedHeaders := [] }).allowedHeaders
          = ["Origin".toList, "Accept".toList, "Content-Type".toList,
              "X-Requested-With".toList]
      ∧ (New { AllowedOrigins := ["http://foobar.com".toList],
               AllowedHeaders := ["X-Header-1".toList, "x-header-2".toList] }).allowedHeaders
          = ["X-Header-1".toList, "X-Header-2".toList, "Origin".toList] :=
  ⟨(New_allowedHeaders { AllowedOrigins := ["http://foobar.com".toList] }).2.2.2
      "origin".toList (by decide),
   ((New_allowedHeaders
      { AllowedOrigins := ["http://foobar.com".toList], AllowedHeaders := [] }).2.1
      (by decide) rfl).2,
   ((New_allowedHeaders
      { AllowedOrigins := ["http://foobar.com".toList]
        AllowedHeaders := ["X-Header-1".toList, "x-header-2".toList] }).2.2.1
      (by decide) (by decide)).2⟩

/-- C12 (as amended): `Handler` takes the preflight path if and only if the method is
`OPTIONS` and the `Access-Control-Request-Method` header has a non-empty value, whichever
non-empty value that is; every other request, an `OPTIONS` request whose header is absent
or empty included, takes the actual-request path. -/
theorem Handler_dispatch (c : Cors) (ctx : RequestCtx) :
    (c.takesPreflightPath ctx
        ↔ ctx.Request.Header.Method = "OPTIONS".toList
            ∧ ctx.Request.Header.Peek "Access-Control-Request-Method".toList ≠ [])
      ∧ (c.takesActualPath ctx
          ↔ ¬ (ctx.Request.Header.Method = "OPTIONS".toList
                ∧ ctx.Request.Header.Peek "Access-Control-Request-Method".toList ≠ [])) := by
  constructor
  · rw [takesPreflightPath_iff, isPreflight_iff]
  · rw [takesActualPath_iff, ← isPreflight_iff]
    cases ctx.isPreflight <;> simp

/-- C12 as stated fails: an `OPTIONS` request that carries the
`Access-Control-Request-Method` header with an empty value takes the actual-request path,
not the preflight path. With the policy of the test `NonPreflightOptions` the outcome is
one `Vary` value and the origin echoed, with the status left at 200, where the preflight
path would have answered 204 with three `Vary` values. -/
theorem Handler_dispatch_counterexample :
    (mkCtx "OPTIONS" [("Origin", "http://foobar.com"),
        ("Access-Control-Request-Method", "")]).IsOptions = true
      ∧ (mkCtx "OPTIONS" [("Origin", "http://foobar.com"),
          ("Access-Control-Request-Method", "")]).Request.Header.has
          "Access-Control-Request-Method".toList = true
      ∧ (New { AllowedOrigins := ["http://foobar.com".toList] }).takesActualPath
          (mkCtx "OPTIONS" [("Origin", "http://foobar.com"),
            ("Access-Control-Request-Method", "")])
      ∧ ¬ (New { AllowedOrigins := ["http://foobar.com".toList] }).takesPreflightPath
          (mkCtx "OPTIONS" [("Origin", "http://foobar.com"),
            ("Access-Control-Request-Method", "")])
      ∧ ((New { AllowedOrigins := ["http://foobar.com".toList] }).Handler id
          (mkCtx "OPTIONS" [("Origin", "http://foobar.com"),
            ("Access-Control-Request-Method", "")])).Response.Header.h
          = [("Vary".toList, "Origin".toList),
             ("Access-Control-Allow-Origin".toList, "http://foobar.com".toList)]
      ∧ ((New { AllowedOrigins := ["http://foobar.com".toList] }).Handler id
          (mkCtx "OPTIONS" [("Origin", "http://foobar.com"),
            ("Access-Control-Request-Method", "")])).Response.statusCode = 200 :=
  ⟨by decide, by decide,
   (takesActualPath_iff _ _).mpr (by decide),
   fun h => absurd ((takesPreflightPath_iff _ _).mp h) (by decide),
   by decide, by decide⟩

/-- C13: `Handler` invokes the downstream handler if and only if the request is not a
preflight or `optionPassthrough` is set. A preflight without pass-through gets status 204
and the outcome is that of `handlePreflight` whatever the downstream handler is, granted or
rejected alike; a preflight with pass-through and every request on the actual-request path
hand their outcome to the downstream handler, also when origin or method is disallowed. -/
theorem Handler_downstream (c : Cors) (ctx : RequestCtx) :
    (c.invokesDownstream ctx ↔ ctx.isPreflight = false ∨ c.optionPassthrough = true)
      ∧ (ctx.isPreflight = true → c.optionPassthrough = false →
          ∀ h : RequestCtx → RequestCtx,
            c.Handler h ctx = (c.handlePreflight ctx).SetStatusCode 204
              ∧ (c.Handler h ctx).Response.statusCode = 204)
      ∧ (ctx.isPreflight = true → c.optionPassthrough = true →
          ∀ h : RequestCtx → RequestCtx, c.Handler h ctx = h (c.handlePreflight ctx))
      ∧ (ctx.isPreflight = false →
          ∀ h : RequestCtx → RequestCtx, c.Handler h ctx = h (c.handleActualRequest ctx)) := by
  refine ⟨invokesDownstream_iff c ctx, ?_, ?_, ?_⟩
  · intro hp hpass h
    have e : c.Handler h ctx = (c.handlePreflight ctx).SetStatusCode 204 := by
      rw [Handler_preflight c h ctx hp, hpass]
      rfl
    exact ⟨e, by rw [e]; rfl⟩
  · intro hp hpass h
    rw [Handler_preflight c h ctx hp, hpass]
    rfl
  · intro hp h
    exact Handler_actual c h ctx hp

/-- The preflight of the test `OptionPassthrough` reaches the downstream handler, the same
preflight without pass-through is answered 204 without it, and a `GET` from a disallowed
origin still reaches the downstream handler. -/
theorem Handler_downstream_witness :
    (∀ h : RequestCtx → RequestCtx,
        (New { OptionsPassthrough := true }).Handler h
            (mkCtx "OPTIONS" [("Origin", "http://foobar.com"),
              ("Access-Control-Request-Method", "GET")])
          = h ((New { OptionsPassthrough := true }).handlePreflight
                (mkCtx "OPTIONS" [("Origin", "http://foobar.com"),
                  ("Access-Control-Request-Method", "GET")])))
      ∧ (∀ h : RequestCtx → RequestCtx,
          ((New {}).Handler h
              (mkCtx "OPTIONS" [("Origin", "http://foobar.com"),
                ("Access-Control-Request-Method", "GET")])).Response.statusCode = 204)
      ∧ (∀ h : RequestCtx → RequestCtx,
          (New { AllowedOrigins := ["http://foo.com".toList] }).Handler h
              (mkCtx "GET" [("Origin", "http://example.com")])
            = h ((New { AllowedOrigins := ["http://foo.com".toList] }).handleActualRequest
                  (mkCtx "GET" [("Origin", "http://example.com")]))) :=
  ⟨(Handler_downstream (New { OptionsPassthrough := true })
      (mkCtx "OPTIONS" [("Origin", "http://foobar.com"),
        ("Access-Control-Request-Method", "GET")])).2.2.1 (by decide) (by decide),
   fun h => ((Handler_downstream (New {})
      (mkCtx "OPTIONS" [("Origin", "http://foobar.com"),
        ("Access-Control-Request-Method", "GET")])).2.1 (by decide) (by decide) h).2,
   (Handler_downstream (New { AllowedOrigins := ["http://foo.com".toList] })
      (mkCtx "GET" [("Origin", "http://example.com")])).2.2.2 (by decide)⟩

/-- C14: on every granted preflight, `Access-Control-Allow-Methods` holds the upper-cased
`Access-Control-Request-Method` value, and `Access-Control-Allow-Headers` is written exactly
when the parsed requested-header list is non-empty, its value being the parsed names joined
by `", "` in the order they were requested; with an empty parsed list the values stored
under that key are left as they were. -/
theorem preflight_allowMethods_allowHeaders (c : Cors) (ctx : RequestCtx)
    (hopt : ctx.IsOptions = true) (hg : c.preflightGranted ctx = true) :
    (c.handlePreflight ctx).Response.Header.Peek "Access-Control-Allow-Methods".toList
        = ToUpper (ctx.Request.Header.Peek "Access-Control-Request-Method".toList)
      ∧ (parseHeaderList (ctx.Request.Header.Peek "Access-Control-Request-Headers".toList) ≠ [] →
          (c.handlePreflight ctx).Response.Header.Peek "Access-Control-Allow-Headers".toList
            = Join (parseHeaderList
                (ctx.Request.Header.Peek "Access-Control-Request-Headers".toList)) ", ".toList)
      ∧ (parseHeaderList (ctx.Request.Header.Peek "Access-Control-Request-Headers".toList) = [] →
          (c.handlePreflight ctx).Response.Header.values "Access-Control-Allow-Headers".toList
            = ctx.Response.Header.values "Access-Control-Allow-Headers".toList)
      ∧ (ctx.Response.Header.has "Access-Control-Allow-Headers".toList = false →
          ((c.handlePreflight ctx).Response.Header.has "Access-Control-Allow-Headers".toList
              = true
            ↔ parseHeaderList
                (ctx.Request.Header.Peek "Access-Control-Request-Headers".toList) ≠ [])) := by
  have hwh : ∀ hd : ResponseHeader, (ctx.withHeader hd).Response.Header = hd := fun _ => rfl
  refine ⟨?_, ?_, ?_, ?_⟩
  · rw [handlePreflight_granted c ctx hopt hg, hwh, Peek_preflightHeaders_methods]
  · intro hne
    rw [handlePreflight_granted c ctx hopt hg, hwh,
      Peek_preflightHeaders_headers _ _ _ _ _ (List.length_pos.mpr hne)]
  · intro he
    apply values_handlePreflight_unchanged _ _ _ (by decide)
    intro _ _
    refine ⟨by decide, by decide, ?_, fun _ => by decide, fun _ => by decide⟩
    intro hl
    rw [he] at hl
    exact absurd hl (by decide)
  · intro h0
    rw [has_handlePreflight c ctx _ hopt (by decide), h0, hg]
    simp [List.length_pos]

/-- The preflight of the end-to-end test `AllowedHeaders`: the requested names come back
canonicalized in the requested order, not in the configured order. -/
theorem preflight_allowMethods_allowHeaders_witness :
    ((New { AllowedOrigins := ["http://foobar.com".toList]
            AllowedHeaders := ["X-Header-1".toList, "x-header-2".toList] }).handlePreflight
        (mkCtx "OPTIONS" [("Origin", "http://foobar.com"),
          ("Access-Control-Request-Method", "get"),
          ("Access-Control-Request-Headers", "X-Header-2, X-HEADER-1")])).Response.Header.Peek
        "Access-Control-Allow-Methods".toList = "GET".toList
      ∧ ((New { AllowedOrigins := ["http://foobar.com".toList]
                AllowedHeaders := ["X-Header-1".toList, "x-header-2".toList] }).handlePreflight
          (mkCtx "OPTIONS" [("Origin", "http://foobar.com"),
            ("Access-Control-Request-Method", "get"),
            ("Access-Control-Request-Headers",
              "X-Header-2, X-HEADER-1")])).Response.Header.Peek
          "Access-Control-Allow-Headers".toList = "X-Header-2, X-Header-1".toList :=
  ⟨(preflight_allowMethods_allowHeaders
      (New { AllowedOrigins := ["http://foobar.com".toList]
             AllowedHeaders := ["X-Header-1".toList, "x-header-2".toList] })
      (mkCtx "OPTIONS" [("Origin", "http://foobar.com"),
        ("Access-Control-Request-Method", "get"),
        ("Access-Control-Request-Headers", "X-Header-2, X-HEADER-1")])
      (by decide) (by decide)).1,
   (preflight_allowMethods_allowHeaders
      (New { AllowedOrigins := ["http://foobar.com".toList]
             AllowedHeaders := ["X-Header-1".toList, "x-header-2".toList] })
      (mkCtx "OPTIONS" [("Origin", "http://foobar.com"),
        ("Access-Control-Request-Method", "get"),
        ("Access-Control-Request-Headers", "X-Header-2, X-HEADER-1")])
      (by decide) (by decide)).2.1 (by decide)⟩

/-- C15: on both paths `Access-Control-Allow-Credentials` is written, with the value
`true`, exactly when the request is granted and the policy allows credentials. A rejected
request, or a granted one under a policy without credentials, leaves the values stored
under that key as they were; so on a response that did not carry the header before, it is
present afterwards if and only if the request is granted and credentials are allowed. -/
theorem allowCredentials_contract (c : Cors) (ctx : RequestCtx) :
    (ctx.IsOptions = true → c.preflightGranted ctx = true → c.allowCredentials = true →
        (c.handlePreflight ctx).Response.Header.Peek "Access-Control-Allow-Credentials".toList
          = "true".toList)
      ∧ (¬ (c.preflightGranted ctx = true ∧ c.allowCredentials = true) →
          (c.handlePreflight ctx).Response.Header.values
              "Access-Control-Allow-Credentials".toList
            = ctx.Response.Header.values "Access-Control-Allow-Credentials".toList)
      ∧ (ctx.IsOptions = true →
          ctx.Response.Header.has "Access-Control-Allow-Credentials".toList = false →
          ((c.handlePreflight ctx).Response.Header.has
                "Access-Control-Allow-Credentials".toList = true
            ↔ c.preflightGranted ctx = true ∧ c.allowCredentials = true))
      ∧ (c.actualGranted ctx = true → c.allowCredentials = true →
          (c.handleActualRequest ctx).Response.Header.Peek
              "Access-Control-Allow-Credentials".toList = "true".toList)
      ∧ (¬ (c.actualGranted ctx = true ∧ c.allowCredentials = true) →
          (c.handleActualRequest ctx).Response.Header.values
              "Access-Control-Allow-Credentials".toList
            = ctx.Response.Header.values "Access-Control-Allow-Credentials".toList)
      ∧ (ctx.Response.Header.has "Access-Control-Allow-Credentials".toList = false →
          ((c.handleActualRequest ctx).Response.Header.has
                "Access-Control-Allow-Credentials".toList = true
            ↔ c.actualGranted ctx = true ∧ c.allowCredentials = true)) := by
  have hwh : ∀ hd : ResponseHeader, (ctx.withHeader hd).Response.Header = hd := fun _ => rfl
  refine ⟨?_, ?_, ?_, ?_, ?_, ?_⟩
  · intro hopt hg hc
    rw [handlePreflight_granted c ctx hopt hg, hwh, Peek_preflightHeaders_credentials _ _ _ _ _ hc]
  · intro hn
    apply values_handlePreflight_unchanged _ _ _ (by decide)
    intro _ hg
    exact ⟨by decide, by decide, fun _ => by decide, fun hc => absurd ⟨hg, hc⟩ hn,
      fun _ => by decide⟩
  · intro hopt h0
    rw [has_handlePreflight c ctx _ hopt (by decide), h0]
    simp
  · intro hg hc
    rw [handleActualRequest_granted c ctx hg, hwh, Peek_actualHeaders_credentials _ _ _ hc]
  · intro hn
    apply values_handleActualRequest_unchanged _ _ _ (by decide)
    intro hg
    exact ⟨by decide, fun _ => by decide, fun hc => absurd ⟨hg, hc⟩ hn⟩
  · intro h0
    rw [has_handleActualRequest c ctx _ (by decide), h0]
    simp

/-- The request of the test `TestHandleActualRequestInvalidMethodAbortion` (rejected, with
credentials enabled) gets no credentials header; the preflight of the test
`AllowedCredentials` gets it. -/
theorem allowCredentials_contract_witness :
    ((New { AllowedMethods := ["POST".toList], AllowCredentials := true }).handleActualRequest
        (mkCtx "GET" [("Origin", "http://example.com/")])).Response.Header.values
        "Access-Control-Allow-Credentials".toList = []
      ∧ ((New { AllowedOrigins := ["http://foobar.com".toList]
                AllowCredentials := true }).handlePreflight
          (mkCtx "OPTIONS" [("Origin", "http://foobar.com"),
            ("Access-Control-Request-Method", "GET")])).Response.Header.Peek
          "Access-Control-Allow-Credentials".toList = "true".toList :=
  ⟨(allowCredentials_contract
      (New { AllowedMethods := ["POST".toList], AllowCredentials := true })
      (mkCtx "GET" [("Origin", "http://example.com/")])).2.2.2.2.1 (by decide),
   (allowCredentials_contract
      (New { AllowedOrigins := ["http://foobar.com".toList], AllowCredentials := true })
      (mkCtx "OPTIONS" [("Origin", "http://foobar.com"),
        ("Access-Control-Request-Method", "GET")])).1 (by decide) (by decide) (by decide)⟩

/-- C16: `Access-Control-Max-Age` is written exactly when the request is a granted preflight
and `maxAge > 0`, and its value is then the decimal digits of `maxAge`. When the preflight
is rejected or `maxAge` is zero or negative, and always on the actual-request path, the
values stored under that key are left as they were. -/
theorem maxAge_contract (c : Cors) (ctx : RequestCtx) :
    (ctx.IsOptions = true → c.preflightGranted ctx = true → c.maxAge > 0 →
        (c.handlePreflight ctx).Response.Header.Peek "Access-Control-Max-Age".toList
            = Itoa c.maxAge
          ∧ Itoa c.maxAge = Nat.toDigits 10 c.maxAge.toNat)
      ∧ (¬ (c.preflightGranted ctx = true ∧ c.maxAge > 0) →
          (c.handlePreflight ctx).Response.Header.values "Access-Control-Max-Age".toList
            = ctx.Response.Header.values "Access-Control-Max-Age".toList)
      ∧ (ctx.IsOptions = true →
          ctx.Response.Header.has "Access-Control-Max-Age".toList = false →
          ((c.handlePreflight ctx).Response.Header.has "Access-Control-Max-Age".toList = true
            ↔ c.preflightGranted ctx = true ∧ c.maxAge > 0))
      ∧ (c.handleActualRequest ctx).Response.Header.values "Access-Control-Max-Age".toList
          = ctx.Response.Header.values "Access-Control-Max-Age".toList
      ∧ (c.handleActualRequest ctx).Response.Header.has "Access-Control-Max-Age".toList
          = ctx.Response.Header.has "Access-Control-Max-Age".toList := by
  have hwh : ∀ hd : ResponseHeader, (ctx.withHeader hd).Response.Header = hd := fun _ => rfl
  refine ⟨?_, ?_, ?_, ?_, ?_⟩
  · intro hopt hg hm
    refine ⟨?_, Itoa_of_nonneg _ (le_of_lt hm)⟩
    rw [handlePreflight_granted c ctx hopt hg, hwh, Peek_preflightHeaders_maxAge _ _ _ _ _ hm]
  · intro hn
    apply values_handlePreflight_unchanged _ _ _ (by decide)
    intro _ hg
    exact ⟨by decide, by decide, fun _ => by decide, fun _ => by decide,
      fun hm => absurd ⟨hg, hm⟩ hn⟩
  · intro hopt h0
    rw [has_handlePreflight c ctx _ hopt (by decide), h0]
    simp
  · apply values_handleActualRequest_unchanged _ _ _ (by decide)
    intro _
    exact ⟨by decide, fun _ => by decide, fun _ => by decide⟩
  · rw [has_handleActualRequest c ctx _ (by decide)]
    simp

/-- The preflight of the end-to-end test `MaxAge` gets `Access-Control-Max-Age: 10`; the
same preflight under a negative `MaxAge` gets none. -/
theorem maxAge_contract_witness :
    ((New { AllowedOrigins := ["http://example.com/".toList]
            AllowedMethods := ["GET".toList]
            MaxAge := 10 }).handlePreflight
        (mkCtx "OPTIONS" [("Origin", "http://example.com/"),
          ("Access-Control-Request-Method", "GET")])).Response.Header.Peek
        "Access-Control-Max-Age".toList = "10".toList
      ∧ ((New { AllowedOrigins := ["http://example.com/".toList]
                AllowedMethods := ["GET".toList]
                MaxAge := -5 }).handlePreflight
          (mkCtx "OPTIONS" [("Origin", "http://example.com/"),
            ("Access-Control-Request-Method", "GET")])).Response.Header.values
          "Access-Control-Max-Age".toList = [] :=
  ⟨((maxAge_contract
      (New { AllowedOrigins := ["http://example.com/".toList]
             AllowedMethods := ["GET".toList]
             MaxAge := 10 })
      (mkCtx "OPTIONS" [("Origin", "http://example.com/"),
        ("Access-Control-Request-Method", "GET")])).1 (by decide) (by decide) (by decide)).1,
   (maxAge_contract
      (New { AllowedOrigins := ["http://example.com/".toList]
             AllowedMethods := ["GET".toList]
             MaxAge := -5 })
      (mkCtx "OPTIONS" [("Origin", "http://example.com/"),
        ("Access-Control-Request-Method", "GET")])).2.1 (by decide)⟩

/-- C17: on every granted actual request under a policy built by `New`,
`Access-Control-Expose-Headers` is written exactly when the configured `ExposedHeaders` list
is non-empty, its value being the canonicalized configured names joined by `", "` in
configured order. When the request is rejected or the list is empty, and always on the
preflight path, the values stored under that key are left as they were. -/
theorem exposeHeaders_contract (o : Options) (ctx : RequestCtx) :
    ((New o).actualGranted ctx = true → o.ExposedHeaders ≠ [] →
        ((New o).handleActualRequest ctx).Response.Header.Peek
            "Access-Control-Expose-Headers".toList
          = Join (o.ExposedHeaders.map CanonicalHeaderKey) ", ".toList)
      ∧ (¬ ((New o).actualGranted ctx = true ∧ o.ExposedHeaders ≠ []) →
          ((New o).handleActualRequest ctx).Response.Header.values
              "Access-Control-Expose-Headers".toList
            = ctx.Response.Header.values "Access-Control-Expose-Headers".toList)
      ∧ (ctx.Response.Header.has "Access-Control-Expose-Headers".toList = false →
          (((New o).handleActualRequest ctx).Response.Header.has
                "Access-Control-Expose-Headers".toList = true
            ↔ (New o).actualGranted ctx = true ∧ o.ExposedHeaders ≠ []))
      ∧ ((New o).handlePreflight ctx).Response.Header.values
            "Access-Control-Expose-Headers".toList
          = ctx.Response.Header.values "Access-Control-Expose-Headers".toList := by
  have hwh : ∀ hd : ResponseHeader, (ctx.withHeader hd).Response.Header = hd := fun _ => rfl
  have hlen : (New o).exposedHeaders.length > 0 ↔ o.ExposedHeaders ≠ [] := by
    rw [New_exposedHeaders, List.length_map]
    exact List.length_pos
  refine ⟨?_, ?_, ?_, ?_⟩
  · intro hg hne
    rw [handleActualRequest_granted _ ctx hg, hwh,
      Peek_actualHeaders_expose _ _ _ (hlen.mpr hne), New_exposedHeaders]
  · intro hn
    apply values_handleActualRequest_unchanged _ _ _ (by decide)
    intro hg
    exact ⟨by decide, fun hl => absurd ⟨hg, hlen.mp hl⟩ hn, fun _ => by decide⟩
  · intro h0
    rw [has_handleActualRequest _ ctx _ (by decide), h0]
    simp [hlen]
  · apply values_handlePreflight_unchanged _ _ _ (by decide)
    intro _ _
    exact ⟨by decide, by decide, fun _ => by decide, fun _ => by decide, fun _ => by decide⟩

/-- The request of the end-to-end test `ExposedHeader`: the configured names come back
canonicalized, in configured order. -/
theorem exposeHeaders_contract_witness :
    ((New { AllowedOrigins := ["http://foobar.com".toList]
            ExposedHeaders := ["X-Header-1".toList, "x-header-2".toList] }).handleActualRequest
        (mkCtx "GET" [("Origin", "http://foobar.com")])).Response.Header.Peek
        "Access-Control-Expose-Headers".toList = "X-Header-1, X-Header-2".toList :=
  (exposeHeaders_contract
      { AllowedOrigins := ["http://foobar.com".toList]
        ExposedHeaders := ["X-Header-1".toList, "x-header-2".toList] }
      (mkCtx "GET" [("Origin", "http://foobar.com")])).1 (by decide) (by decide)

/-- C18 (as amended): for every policy whose origin mode is AllowAll (the flag is set and
no origin predicate is configured) and every request carrying a non-empty `Origin`,
`Access-Control-Allow-Origin` is `*` provided the method check passes as well: the request's
own method on the actual-request path, the requested method and the requested headers on
the preflight path. -/
theorem allowAll_origin_star (c : Cors) (ctx : RequestCtx)
    (hall : c.allowedOriginsAll = true) (hf : c.allowOriginFunc = none)
    (hrf : c.allowOriginRequestFunc = none)
    (ho : ctx.Request.Header.Peek "Origin".toList ≠ []) :
    (c.isMethodAllowed ctx.Request.Header.Method = true →
        (c.handleActualRequest ctx).Response.Header.Peek "Access-Control-Allow-Origin".toList
          = "*".toList)
      ∧ (ctx.IsOptions = true →
          c.isMethodAllowed
              (ctx.Request.Header.Peek "Access-Control-Request-Method".toList) = true →
          c.areHeadersAllowed
              (parseHeaderList
                (ctx.Request.Header.Peek "Access-Control-Request-Headers".toList)) = true →
          (c.handlePreflight ctx).Response.Header.Peek "Access-Control-Allow-Origin".toList
            = "*".toList) := by
  have hwh : ∀ hd : ResponseHeader, (ctx.withHeader hd).Response.Header = hd := fun _ => rfl
  have horigin : ∀ x : RequestCtx, ∀ s : Str, c.isOriginAllowed x s = true := by
    intro x s
    unfold Cors.isOriginAllowed
    rw [hrf, hf]
    simp only [hall, if_true]
  constructor
  · intro hm
    have hg : c.actualGranted ctx = true := by
      unfold Cors.actualGranted
      rw [horigin, hm, decide_eq_true ho]
      rfl
    rw [handleActualRequest_granted c ctx hg, hwh, Peek_actualHeaders, hall]
    rfl
  · intro hopt hm hh
    have hg : c.preflightGranted ctx = true := by
      unfold Cors.preflightGranted
      rw [horigin, hm, hh, decide_eq_true ho]
      rfl
    rw [handlePreflight_granted c ctx hopt hg, hwh, Peek_preflightHeaders, hall]
    rfl

/-- The request of the end-to-end test `MatchAllOrigin`: a `GET` with an origin under
`AllowedOrigins = ["*"]` gets `Access-Control-Allow-Origin: *`. -/
theorem allowAll_origin_star_witness :
    (mkCtx "GET" [("Origin", "http://foobar.com")]).Request.Header.Peek "Origin".toList ≠ []
      ∧ ((New { AllowedOrigins := ["*".toList] }).handleActualRequest
          (mkCtx "GET" [("Origin", "http://foobar.com")])).Response.Header.Peek
          "Access-Control-Allow-Origin".toList = "*".toList :=
  ⟨by decide,
   (allowAll_origin_star (New { AllowedOrigins := ["*".toList] })
      (mkCtx "GET" [("Origin", "http://foobar.com")]) (by decide) rfl rfl (by decide)).1
      (by decide)⟩

/-- C18 as stated fails: under `AllowedOrigins = ["*"]` with the default methods, a
`DELETE` request carrying a non-empty `Origin` gets no `Access-Control-Allow-Origin` at
all, because the method check rejects it; only `Vary: Origin` is added. -/
theorem allowAll_origin_star_counterexample :
    (New { AllowedOrigins := ["*".toList] }).allowedOriginsAll = true
      ∧ (New { AllowedOrigins := ["*".toList] }).modePredicate = false
      ∧ (mkCtx "DELETE" [("Origin", "http://foobar.com")]).Request.Header.Peek "Origin".toList
          = "http://foobar.com".toList
      ∧ ((New { AllowedOrigins := ["*".toList] }).Handler id
          (mkCtx "DELETE" [("Origin", "http://foobar.com")])).Response.Header.h
          = [("Vary".toList, "Origin".toList)]
      ∧ ((New { AllowedOrigins := ["*".toList] }).Handler id
          (mkCtx "DELETE" [("Origin", "http://foobar.com")])).Response.Header.has
          "Access-Control-Allow-Origin".toList = false :=
  ⟨by decide, by decide, by decide, by decide, by decide⟩

/-- C19 fails on the code: two options records with the same `AllowOriginFunc` that differ
only in `AllowedOrigins` answer the same `GET` differently. With `*` in `AllowedOrigins`
the response carries `Access-Control-Allow-Origin: *`, with a literal entry it carries the
request origin, so the content of `AllowedOrigins` is not ignored. -/
theorem allowOriginFunc_allowedOrigins_divergence :
    ((New { AllowOriginFunc := some (fun _ => true)
            AllowedOrigins := ["*".toList] }).Handler id
        (mkCtx "GET" [("Origin", "http://foobar.com")])).Response.Header.h
        = [("Vary".toList, "Origin".toList),
           ("Access-Control-Allow-Origin".toList, "*".toList)]
      ∧ ((New { AllowOriginFunc := some (fun _ => true)
                AllowedOrigins := ["http://a.com".toList] }).Handler id
          (mkCtx "GET" [("Origin", "http://foobar.com")])).Response.Header.h
          = [("Vary".toList, "Origin".toList),
             ("Access-Control-Allow-Origin".toList, "http://foobar.com".toList)] :=
  ⟨by decide, by decide⟩

/-- C20 (as amended): for every options record, at least one of the three origin modes
holds for the policy `New` builds (AllowAll flag set, explicit literal or wildcard list
populated, origin predicate configured), and AllowAll never holds together with a populated
explicit list. When no predicate is configured, or `AllowedOrigins` is empty, exactly one of
the three holds. -/
theorem New_originModes (o : Options) :
    ((New o).modeAllowAll || (New o).modeExplicit || (New o).modePredicate) = true
      ∧ ((New o).modeAllowAll && (New o).modeExplicit) = false
      ∧ ((New o).modePredicate = false ∨ o.AllowedOrigins = [] →
          exactlyOne (New o).modeAllowAll (New o).modeExplicit (New o).modePredicate = true) := by
  have hp : (New o).modePredicate
      = (o.AllowOriginFunc.isSome || o.AllowOriginRequestFunc.isSome) := by
    unfold Cors.modePredicate
    rw [(New_funcs o).1, (New_funcs o).2]
  by_cases h0 : o.AllowedOrigins = []
  · obtain ⟨ha, hl, hw⟩ := New_origins_empty o h0
    have he : (New o).modeExplicit = false := by
      unfold Cors.modeExplicit
      rw [hl, hw]
      rfl
    have hall : (New o).modeAllowAll
        = (o.AllowOriginFunc.isNone && o.AllowOriginRequestFunc.isNone) := ha
    rw [hp, he, hall]
    cases o.AllowOriginFunc <;> cases o.AllowOriginRequestFunc <;> simp [exactlyOne]
  · by_cases h1 : "*".toList ∈ o.AllowedOrigins
    · obtain ⟨ha, hl, hw⟩ := New_origins_star o h1
      have he : (New o).modeExplicit = false := by
        unfold Cors.modeExplicit
        rw [hl, hw]
        rfl
      have hall : (New o).modeAllowAll = true := ha
      rw [he, hall]
      refine ⟨by simp, by simp, ?_⟩
      rintro (h | h)
      · rw [h]; rfl
      · exact absurd h h0
    · obtain ⟨ha, hl, hw⟩ := New_origins_nostar o h0 h1
      have hall : (New o).modeAllowAll = false := ha
      have he : (New o).modeExplicit = true := by
        unfold Cors.modeExplicit
        rw [hl, hw]
        obtain ⟨e, rest, hL⟩ := List.exists_cons_of_ne_nil h0
        rw [hL]
        by_cases hs : '*' ∈ e
        · simp [List.filter_cons, hs]
        · simp [List.filter_cons, hs]
      rw [he, hall]
      refine ⟨by simp, by simp, ?_⟩
      rintro (h | h)
      · rw [h]; rfl
      · exact absurd h h0

/-- A policy with neither predicate: a `*`-free list gives the explicit mode alone. -/
theorem New_originModes_witness :
    (New { AllowedOrigins := ["http://a.com".toList, "http://*.b.com".toList] }).modePredicate
        = false
      ∧ exactlyOne
          (New { AllowedOrigins :=
                  ["http://a.com".toList, "http://*.b.com".toList] }).modeAllowAll
          (New { AllowedOrigins :=
                  ["http://a.com".toList, "http://*.b.com".toList] }).modeExplicit
          (New { AllowedOrigins :=
                  ["http://a.com".toList, "http://*.b.com".toList] }).modePredicate = true :=
  ⟨by decide,
   (New_originModes
      { AllowedOrigins := ["http://a.com".toList, "http://*.b.com".toList] }).2.2
      (Or.inl (by decide))⟩

/-- C20 as stated fails: with `AllowOriginFunc` configured next to a literal
`AllowedOrigins` entry, the policy has both a populated explicit list and a predicate, so
two of the three modes hold at once. -/
theorem New_originModes_counterexample :
    (New { AllowOriginFunc := some (fun _ => true)
           AllowedOrigins := ["http://a.com".toList] }).modeAllowAll = false
      ∧ (New { AllowOriginFunc := some (fun _ => true)
               AllowedOrigins := ["http://a.com".toList] }).modeExplicit = true
      ∧ (New { AllowOriginFunc := some (fun _ => true)
               AllowedOrigins := ["http://a.com".toList] }).modePredicate = true
      ∧ exactlyOne
          (New { AllowOriginFunc := some (fun _ => true)
                 AllowedOrigins := ["http://a.com".toList] }).modeAllowAll
          (New { AllowOriginFunc := some (fun _ => true)
                 AllowedOrigins := ["http://a.com".toList] }).modeExplicit
          (New { AllowOriginFunc := some (fun _ => true)
                 AllowedOrigins := ["http://a.com".toList] }).modePredicate = false :=
  ⟨by decide, by decide, by decide, by decide⟩

/-- C24: for every policy, request and initial response header, both handlers leave the
fields stored under any name other than `Vary` and the six `Access-Control-*` names exactly
as they were, values and order. The `Vary` values already on the response are kept and the
new values come after them: three on an `OPTIONS` request through `handlePreflight`, none
on another method, one through `handleActualRequest`. -/
theorem decision_frame (c : Cors) (ctx : RequestCtx) :
    (c.handlePreflight ctx).Response.Header.others = ctx.Response.Header.others
      ∧ (c.handleActualRequest ctx).Response.Header.others = ctx.Response.Header.others
      ∧ (∀ k : Str, k ∉ corsHeaderNames →
          (c.handlePreflight ctx).Response.Header.values k = ctx.Response.Header.values k
            ∧ (c.handleActualRequest ctx).Response.Header.values k
                = ctx.Response.Header.values k)
      ∧ (ctx.IsOptions = true →
          (c.handlePreflight ctx).Response.Header.values "Vary".toList
            = ctx.Response.Header.values "Vary".toList
                ++ ["Origin".toList, "Access-Control-Request-Method".toList,
                    "Access-Control-Request-Headers".toList])
      ∧ (ctx.IsOptions = false →
          (c.handlePreflight ctx).Response.Header.values "Vary".toList
            = ctx.Response.Header.values "Vary".toList)
      ∧ (c.handleActualRequest ctx).Response.Header.values "Vary".toList
          = ctx.Response.Header.values "Vary".toList ++ ["Origin".toList] := by
  refine ⟨others_handlePreflight c ctx, others_handleActualRequest c ctx, ?_,
    values_handlePreflight c ctx, ?_, values_handleActualRequest c ctx⟩
  · intro k hk
    have hne : ∀ k1 : Str, k1 ∈ corsHeaderNames → k1 ≠ k := fun k1 h1 =>
      ne_of_not_mem_names k k1 hk h1
    constructor
    · apply values_handlePreflight_unchanged _ _ _ (hne _ (by decide))
      intro _ _
      exact ⟨hne _ (by decide), hne _ (by decide), fun _ => hne _ (by decide),
        fun _ => hne _ (by decide), fun _ => hne _ (by decide)⟩
    · apply values_handleActualRequest_unchanged _ _ _ (hne _ (by decide))
      intro _
      exact ⟨hne _ (by decide), fun _ => hne _ (by decide), fun _ => hne _ (by decide)⟩
  · intro hopt
    rw [handlePreflight_not_options c ctx hopt]

/-- A granted preflight on a response that already carries a `Vary` value, a stale
`Access-Control-Allow-Origin` and an unrelated field: the old `Vary` value stays first, the
stale value is replaced in place and the unrelated field is untouched. -/
theorem decision_frame_witness :
    ((New { AllowedOrigins := ["http://foobar.com".toList] }).handlePreflight
        ⟨⟨⟨"OPTIONS".toList,
            [("Origin".toList, "http://foobar.com".toList),
             ("Access-Control-Request-Method".toList, "GET".toList)]⟩⟩,
          ⟨⟨[("Vary".toList, "Accept-Encoding".toList),
              ("Access-Control-Allow-Origin".toList, "http://stale.com".toList),
              ("X-Request-Id".toList, "42".toList)]⟩, 200⟩⟩).Response.Header.h
      = [("Vary".toList, "Accept-Encoding".toList),
         ("Access-Control-Allow-Origin".toList, "http://foobar.com".toList),
         ("X-Request-Id".toList, "42".toList),
         ("Vary".toList, "Origin".toList),
         ("Vary".toList, "Access-Control-Request-Method".toList),
         ("Vary".toList, "Access-Control-Request-Headers".toList),
         ("Access-Control-Allow-Methods".toList, "GET".toList)]
      ∧ ((New { AllowedOrigins := ["http://foobar.com".toList] }).handlePreflight
          ⟨⟨⟨"OPTIONS".toList,
              [("Origin".toList, "http://foobar.com".toList),
               ("Access-Control-Request-Method".toList, "GET".toList)]⟩⟩,
            ⟨⟨[("Vary".toList, "Accept-Encoding".toList),
                ("Access-Control-Allow-Origin".toList, "http://stale.com".toList),
                ("X-Request-Id".toList, "42".toList)]⟩, 200⟩⟩).Response.Header.others
          = [("X-Request-Id".toList, "42".toList)] :=
  ⟨by decide,
   (decision_frame (New { AllowedOrigins := ["http://foobar.com".toList] })
      ⟨⟨⟨"OPTIONS".toList,
          [("Origin".toList, "http://foobar.com".toList),
           ("Access-Control-Request-Method".toList, "GET".toList)]⟩⟩,
        ⟨⟨[("Vary".toList, "Accept-Encoding".toList),
            ("Access-Control-Allow-Origin".toList, "http://stale.com".toList),
            ("X-Request-Id".toList, "42".toList)]⟩, 200⟩⟩).1⟩

/-- C25: for every policy and every request whose method is not `OPTIONS`,
`handlePreflight` returns the context unchanged: no response header is written, the three
`Vary` values included. -/
theorem handlePreflight_noop (c : Cors) (ctx : RequestCtx)
    (hm : ctx.Request.Header.Method ≠ "OPTIONS".toList) :
    c.handlePreflight ctx = ctx
      ∧ (c.handlePreflight ctx).Response.Header.h = ctx.Response.Header.h := by
  have e : c.handlePreflight ctx = ctx :=
    handlePreflight_not_options c ctx ((IsOptions_false_iff ctx).mpr hm)
  exact ⟨e, by rw [e]⟩

/-- The request of the test `TestHandlePreflightNoOptionsAbortion`: a `GET` through
`handlePreflight` under the default policy leaves the response without any header. -/
theorem handlePreflight_noop_witness :
    (mkCtx "GET" []).Request.Header.Method ≠ "OPTIONS".toList
      ∧ (Default.handlePreflight (mkCtx "GET" [])).Response.Header.h = [] :=
  ⟨by decide, (handlePreflight_noop Default (mkCtx "GET" []) (by decide)).2⟩

/-- C21 (as amended): every wildcard pattern `New` stores comes from a configured entry
containing `*`, split at its first `*` after lower-casing; its prefix never contains `*`,
and its suffix contains `*` exactly when that entry has two or more `*`. So the suffix is
free of `*` for every entry with a single `*`. -/
theorem New_wildcard_halves (o : Options) (w : wildcard)
    (hw : w ∈ (New o).allowedWOrigins) :
    '*' ∉ w.pfx
      ∧ ∃ e ∈ o.AllowedOrigins,
          '*' ∈ e ∧ w = splitWildcard (ToLower e) ∧ ('*' ∈ w.sfx ↔ 2 ≤ e.count '*') := by
  obtain ⟨e, he, hs, rfl⟩ := New_allowedWOrigins_mem o w hw
  refine ⟨star_not_mem_pfx _, e, he, hs, rfl, ?_⟩
  rw [star_mem_sfx_iff, count_star_ToLower]

/-- An entry with one `*`: the stored pattern has no `*` in either half. -/
theorem New_wildcard_halves_witness :
    (⟨"http://".toList, ".bar.com".toList⟩ : wildcard)
        ∈ (New { AllowedOrigins := ["http://*.Bar.com".toList] }).allowedWOrigins
      ∧ '*' ∉ "http://".toList
      ∧ ∃ e ∈ ["http://*.Bar.com".toList],
          '*' ∈ e
            ∧ (⟨"http://".toList, ".bar.com".toList⟩ : wildcard) = splitWildcard (ToLower e)
            ∧ ('*' ∈ ".bar.com".toList ↔ 2 ≤ e.count '*') :=
  ⟨List.mem_singleton.mpr rfl,
   New_wildcard_halves { AllowedOrigins := ["http://*.Bar.com".toList] }
     ⟨"http://".toList, ".bar.com".toList⟩ (List.mem_singleton.mpr rfl)⟩

/-- C21 as stated fails: an entry with two `*` is split at the first one and the second
one stays in the suffix of the stored pattern. -/
theorem New_wildcard_halves_counterexample :
    ((New { AllowedOrigins := ["http://*.*.com".toList] }).allowedWOrigins.map
        (fun w => (w.pfx, w.sfx))) = [("http://".toList, ".*.com".toList)]
      ∧ decide ('*' ∈ ".*.com".toList) = true :=
  ⟨by decide, by decide⟩

/-- C26: under a policy with no per-request predicate, if a preflight with origin `o` and
requested method `m` is granted, then an actual request with the same origin whose method
is `m` is granted too, and both responses carry the same `Access-Control-Allow-Origin`
value. -/
theorem preflight_granted_actual_granted (c : Cors) (ctxP ctxA : RequestCtx)
    (hrf : c.allowOriginRequestFunc = none) (hopt : ctxP.IsOptions = true)
    (ho : ctxA.Request.Header.Peek "Origin".toList = ctxP.Request.Header.Peek "Origin".toList)
    (hm : ctxA.Request.Header.Method
        = ctxP.Request.Header.Peek "Access-Control-Request-Method".toList)
    (hg : c.preflightGranted ctxP = true) :
    c.actualGranted ctxA = true
      ∧ (c.handleActualRequest ctxA).Response.Header.Peek "Access-Control-Allow-Origin".toList
          = (c.handlePreflight ctxP).Response.Header.Peek "Access-Control-Allow-Origin".toList := by
  have hwP : ∀ hd : ResponseHeader, (ctxP.withHeader hd).Response.Header = hd := fun _ => rfl
  have hwA : ∀ hd : ResponseHeader, (ctxA.withHeader hd).Response.Header = hd := fun _ => rfl
  have hg2 := hg
  unfold Cors.preflightGranted at hg2
  simp only [Bool.and_eq_true, decide_eq_true_eq] at hg2
  obtain ⟨⟨⟨h1, h2⟩, h3⟩, _⟩ := hg2
  have ha : c.actualGranted ctxA = true := by
    unfold Cors.actualGranted
    rw [ho, hm, h3, decide_eq_true h1, isOriginAllowed_ctx c _ _ _ hrf, h2]
    rfl
  refine ⟨ha, ?_⟩
  rw [handleActualRequest_granted c ctxA ha, hwA, Peek_actualHeaders,
    handlePreflight_granted c ctxP hopt hg, hwP, Peek_preflightHeaders, ho]

/-- A granted preflight asking for `PUT` and the `PUT` request that follows it. -/
theorem preflight_granted_actual_granted_witness :
    (New { AllowedOrigins := ["http://foobar.com".toList]
           AllowedMethods := ["PUT".toList] }).preflightGranted
        (mkCtx "OPTIONS" [("Origin", "http://foobar.com"),
          ("Access-Control-Request-Method", "PUT")]) = true
      ∧ (New { AllowedOrigins := ["http://foobar.com".toList]
               AllowedMethods := ["PUT".toList] }).actualGranted
          (mkCtx "PUT" [("Origin", "http://foobar.com")]) = true
      ∧ ((New { AllowedOrigins := ["http://foobar.com".toList]
                AllowedMethods := ["PUT".toList] }).handleActualRequest
          (mkCtx "PUT" [("Origin", "http://foobar.com")])).Response.Header.Peek
          "Access-Control-Allow-Origin".toList
          = ((New { AllowedOrigins := ["http://foobar.com".toList]
                    AllowedMethods := ["PUT".toList] }).handlePreflight
              (mkCtx "OPTIONS" [("Origin", "http://foobar.com"),
                ("Access-Control-Request-Method", "PUT")])).Response.Header.Peek
              "Access-Control-Allow-Origin".toList :=
  ⟨by decide,
   preflight_granted_actual_granted
     (New { AllowedOrigins := ["http://foobar.com".toList]
            AllowedMethods := ["PUT".toList] })
     (mkCtx "OPTIONS" [("Origin", "http://foobar.com"),
       ("Access-Control-Request-Method", "PUT")])
     (mkCtx "PUT" [("Origin", "http://foobar.com")])
     rfl (by decide) (by decide) (by decide) (by decide)⟩

/-- C27: with no predicate configured, extending a non-empty `AllowedOrigins` list never
revokes an origin: if the policy built from a non-empty list admits an origin, so does the
policy built from any list containing all its entries. -/
theorem New_allowedOrigins_monotone (o o1 : Options) (ctx ctx1 : RequestCtx) (origin : Str)
    (hf : o.AllowOriginFunc = none) (hrf : o.AllowOriginRequestFunc = none)
    (hf1 : o1.AllowOriginFunc = none) (hrf1 : o1.AllowOriginRequestFunc = none)
    (hne : o.AllowedOrigins ≠ [])
    (hsub : ∀ e ∈ o.AllowedOrigins, e ∈ o1.AllowedOrigins)
    (h : (New o).isOriginAllowed ctx origin = true) :
    (New o1).isOriginAllowed ctx1 origin = true := by
  have p : (New o).allowOriginFunc = none := by rw [(New_funcs o).1, hf]
  have q : (New o).allowOriginRequestFunc = none := by rw [(New_funcs o).2, hrf]
  have p1 : (New o1).allowOriginFunc = none := by rw [(New_funcs o1).1, hf1]
  have q1 : (New o1).allowOriginRequestFunc = none := by rw [(New_funcs o1).2, hrf1]
  rw [isOriginAllowed_no_predicate _ _ _ p1 q1]
  rw [isOriginAllowed_no_predicate _ _ _ p q] at h
  have hne1 : o1.AllowedOrigins ≠ [] := by
    obtain ⟨e, rest, hL⟩ := List.exists_cons_of_ne_nil hne
    intro e1
    have := hsub e (by rw [hL]; exact List.mem_cons_self _ _)
    rw [e1] at this
    exact absurd this (List.not_mem_nil _)
  by_cases hs1 : "*".toList ∈ o1.AllowedOrigins
  · rw [(New_origins_star o1 hs1).1]
    rfl
  · have hs : "*".toList ∉ o.AllowedOrigins := fun e => hs1 (hsub _ e)
    obtain ⟨ha, hl, hw⟩ := New_origins_nostar o hne hs
    obtain ⟨ha1, hl1, hw1⟩ := New_origins_nostar o1 hne1 hs1
    rw [ha, hl, hw] at h
    rw [ha1, hl1, hw1]
    simp only [Bool.false_or, Bool.or_eq_true, originInList_iff, originInWildcards_iff,
      List.mem_map, List.mem_filter] at h ⊢
    rcases h with ⟨e, ⟨he, hp⟩, hx⟩ | ⟨w, ⟨e, ⟨he, hp⟩, hx⟩, hm⟩
    · exact Or.inl ⟨e, ⟨hsub e he, hp⟩, hx⟩
    · exact Or.inr ⟨w, ⟨e, ⟨hsub e he, hp⟩, hx⟩, hm⟩

/-- An origin admitted by a one-entry list stays admitted when an entry is put in front;
the empty list, which allows every origin, is not covered: adding an entry to it revokes
the origins the entry does not match. -/
theorem New_allowedOrigins_monotone_witness :
    (New { AllowedOrigins := ["http://a.com".toList] }).isOriginAllowed (mkCtx "GET" [])
        "http://A.com".toList = true
      ∧ (New { AllowedOrigins :=
                ["http://*.b.com".toList, "http://a.com".toList] }).isOriginAllowed
          (mkCtx "GET" []) "http://A.com".toList = true
      ∧ (New { AllowedOrigins := [] }).isOriginAllowed (mkCtx "GET" [])
          "http://c.com".toList = true
      ∧ (New { AllowedOrigins := ["http://a.com".toList] }).isOriginAllowed (mkCtx "GET" [])
          "http://c.com".toList = false :=
  ⟨by decide,
   New_allowedOrigins_monotone
     { AllowedOrigins := ["http://a.com".toList] }
     { AllowedOrigins := ["http://*.b.com".toList, "http://a.com".toList] }
     (mkCtx "GET" []) (mkCtx "GET" []) "http://A.com".toList rfl rfl rfl rfl
     (by decide) (by decide) (by decide),
   by decide, by decide⟩

/-- C22: `parseHeaderList` returns the comma-separated tokens of its input (texts without
a comma whose comma-join is the input), each with its surrounding whitespace removed, the
empty ones dropped and the others canonicalized, in their original order with duplicates
kept. The input of the unit test gives `Header`, `Second-Header`, `Third-Header`,
`Numb3r3d-H34d3r`; the empty input, and every input made only of whitespace and commas,
gives the empty sequence. -/
theorem parseHeaderList_contract (raw : Str) :
    parseHeaderList raw
        = (((splitComma raw).map trimSpace).filter (fun t => decide (t ≠ []))).map
            CanonicalHeaderKey
      ∧ Join (splitComma raw) ",".toList = raw
      ∧ (∀ t ∈ splitComma raw, ',' ∉ t)
      ∧ (∀ t : Str,
          (∃ a b : Str, t = a ++ trimSpace t ++ b
            ∧ (∀ c ∈ a, c.isWhitespace = true) ∧ (∀ c ∈ b, c.isWhitespace = true))
          ∧ (∀ c, (trimSpace t).head? = some c → c.isWhitespace = false)
          ∧ (∀ c, (trimSpace t).getLast? = some c → c.isWhitespace = false))
      ∧ parseHeaderList "header, second-header, THIRD-HEADER, Numb3r3d-H34d3r".toList
          = ["Header".toList, "Second-Header".toList, "Third-Header".toList,
              "Numb3r3d-H34d3r".toList]
      ∧ parseHeaderList "a, B ,,a".toList = ["A".toList, "B".toList, "A".toList]
      ∧ parseHeaderList [] = []
      ∧ parseHeaderList " , ".toList = []
      ∧ ((∀ c ∈ raw, c = ' ' ∨ c = ',') → parseHeaderList raw = []) := by
  refine ⟨?_, Join_splitComma raw, splitComma_no_comma raw, ?_, by decide, by decide,
    by decide, by decide, ?_⟩
  · unfold parseHeaderList
    congr 2
    funext t
    cases t <;> simp
  · intro t
    exact ⟨trimSpace_decompose t, (trimSpace_ends t).1, (trimSpace_ends t).2⟩
  · intro h
    apply parseHeaderList_separators
    intro c hc
    rcases h c hc with e | e
    · left; rw [e]; decide
    · exact Or.inr e

/-- A run of spaces and commas parses to the empty sequence. -/
theorem parseHeaderList_contract_witness :
    (∀ c ∈ " ,, , ".toList, c = ' ' ∨ c = ',') ∧ parseHeaderList " ,, , ".toList = [] :=
  ⟨by decide, (parseHeaderList_contract " ,, , ".toList).2.2.2.2.2.2.2.2 (by decide)⟩

/-- C23 fails on the code: the policy `AllowAll` builds has credentials switched off, so a
`GET` with an origin and a preflight asking for `DELETE` with a custom header are both
granted with `Access-Control-Allow-Origin: *` but neither response carries
`Access-Control-Allow-Credentials`. -/
theorem AllowAll_without_credentials :
    AllowAll.allowCredentials = false
      ∧ (AllowAll.handleActualRequest
          (mkCtx "GET" [("Origin", "http://foobar.com")])).Response.Header.h
          = [("Vary".toList, "Origin".toList),
             ("Access-Control-Allow-Origin".toList, "*".toList)]
      ∧ (AllowAll.handlePreflight
          (mkCtx "OPTIONS" [("Origin", "http://foobar.com"),
            ("Access-Control-Request-Method", "DELETE"),
            ("Access-Control-Request-Headers", "X-Custom")])).Response.Header.h
          = [("Vary".toList, "Origin".toList),
             ("Vary".toList, "Access-Control-Request-Method".toList),
             ("Vary".toList, "Access-Control-Request-Headers".toList),
             ("Access-Control-Allow-Origin".toList, "*".toList),
             ("Access-Control-Allow-Methods".toList, "DELETE".toList),
             ("Access-Control-Allow-Headers".toList, "X-Custom".toList)] :=
  ⟨by decide, by decide, by decide⟩

end cors
